import Mathlib

/-!
# Triangle maze solver (`proj3.c`): shallow embedding and verified properties

The C program reads a grid of triangular cells, each with a packed border code,
and walks it with the right-hand or left-hand rule.  The definitions below follow
`src/proj3/proj3.c` function by function:

* `int` values are `Int`; C's `%` is truncated division, hence `Int.tmod`.
  All coordinates handled here are bounded by the grid dimensions, so no
  arithmetic leaves the range of `int`.
* `map->cells` is a `List Nat` (the `unsigned char` codes in file order).
  A read outside the loaded codes, or outside the local `borders[3]` array, has
  no defined value in C; it is the result `Exec.fault`.
* `while` loops are recursion on a fuel argument; running out of fuel is the
  result `Exec.diverge`.
* `stdout` is the list of emitted coordinate pairs; messages on `stderr` are not
  modelled.
-/

namespace Maze

/-- The `Map` struct: dimensions and the cell codes in row-major order. -/
structure Map where
  rows : Int
  cols : Int
  cells : List Nat
deriving DecidableEq, Repr

/-- Result of running a piece of the program. -/
inductive Exec (α : Type) where
  | ok (a : α)
  | fault
  | diverge
deriving DecidableEq, Repr

/-- The macro `cell_value`: `((r-1)*map->cols+c)-1`. -/
def cell_value (map : Map) (r c : Int) : Int :=
  ((r - 1) * map.cols + c) - 1

/-- The read `map->cells[cell_value]`. -/
def read_cell (map : Map) (r c : Int) : Option Nat :=
  if cell_value map r c < 0 then none
  else map.cells[(cell_value map r c).toNat]?

/-- The body of `isborder` between `value %= 8` and the filled `borders` array:
the three flags `(borders[horizontal], borders[right], borders[left])`. -/
def decode (code : Nat) : Bool × Bool × Bool :=
  let value : Int := (code : Int)
  let value := Int.tmod value 8
  let horizontal := decide (value ≥ 4)
  let value := if value ≥ 4 then value - 4 else value
  let right := decide (value ≥ 2)
  let value := if value ≥ 2 then value - 2 else value
  let left := decide (value ≥ 1)
  (horizontal, right, left)

/-- The read `borders[border]` of the local three-element array. -/
def border_flag (borders : Bool × Bool × Bool) (border : Int) : Exec Bool :=
  if border = 0 then .ok borders.1
  else if border = 1 then .ok borders.2.1
  else if border = 2 then .ok borders.2.2
  else .fault

/-- The function `isborder`: `true` for an impassable wall, `false` for free passage. -/
def isborder (map : Map) (r c border : Int) : Exec Bool :=
  match read_cell map r c with
  | none => .fault
  | some code => border_flag (decode code) border

/-- The function `start_border`: `-1` for error, otherwise the index of the entry border. -/
def start_border (map : Map) (r c : Int) : Exec Int :=
  -- entry from the left side
  if c = 1 then
    match isborder map r c 2 with
    | .ok false => .ok 2
    | .ok true =>
      if r = 1 ∨ r = map.rows then
        match isborder map r c 0 with
        | .ok false => .ok 0
        | .ok true => .ok (-1)
        | .fault => .fault
        | .diverge => .diverge
      else .ok (-1)
    | .fault => .fault
    | .diverge => .diverge
  -- entry from the right side
  else if c = map.cols then
    match isborder map r c 1 with
    | .ok false => .ok 1
    | .ok true =>
      if r = 1 ∨ r = map.rows then
        match isborder map r c 0 with
        | .ok false => .ok 0
        | .ok true => .ok (-1)
        | .fault => .fault
        | .diverge => .diverge
      else .ok (-1)
    | .fault => .fault
    | .diverge => .diverge
  -- entry from above/below
  else if r = 1 ∨ r = map.rows then
    match isborder map r c 0 with
    | .ok false => .ok 0
    | .ok true => .ok (-1)
    | .fault => .fault
    | .diverge => .diverge
  -- the cell is not located on the edge
  else .ok (-1)

/-- The table `moves` of `cell_movement`. -/
def moves : List (Int × Int) := [(1, 0), (0, -1), (-1, 0), (0, 1)]

/-- The enum `directions` of `cell_movement`. -/
def d_down : Nat := 0
/-- The enum `directions` of `cell_movement`. -/
def d_left : Nat := 1
/-- The enum `directions` of `cell_movement`. -/
def d_up : Nat := 2
/-- The enum `directions` of `cell_movement`. -/
def d_right : Nat := 3

/-- The loop `for (i...) curr_coordinates[i] += moves[k][i]`. -/
def add_move (curr : Int × Int) (k : Nat) : Int × Int :=
  (curr.1 + (moves.getD k (0, 0)).1, curr.2 + (moves.getD k (0, 0)).2)

/-- The rotation loop `while (1)` of `cell_movement`: advance `*direction` by the
increment modulo 3 until `isborder` reports free passage. -/
def rotation (map : Map) (curr : Int × Int) (direction_increment : Int) :
    Nat → Int → Exec Int
  | 0, _ => .diverge
  | fuel + 1, direction =>
    let direction := Int.tmod (direction + direction_increment + 3) 3
    match isborder map curr.1 curr.2 direction with
    | .ok false => .ok direction
    | .ok true => rotation map curr direction_increment fuel direction
    | .fault => .fault
    | .diverge => .diverge

/-- The `switch (*direction)` of `cell_movement`: the move to the new cell. -/
def move_cell (curr : Int × Int) (direction : Int) (updown : Nat) : Int × Int :=
  if direction = 0 then add_move curr updown
  else if direction = 1 then add_move curr d_right
  else if direction = 2 then add_move curr d_left
  else curr

/-- The mutable variables of the traversal: `curr_coordinates`, `direction` and
the lines written to `stdout` so far. -/
structure Walk where
  curr : Int × Int
  direction : Int
  out : List (Int × Int)
deriving DecidableEq, Repr

/-- The function `cell_movement`: rotate, print the current cell, move. -/
def cell_movement (rotFuel : Nat) (map : Map) (w : Walk) (direction_increment : Int)
    (updown : Nat) : Exec Walk :=
  match rotation map w.curr direction_increment rotFuel w.direction with
  | .ok direction =>
    .ok { curr := move_cell w.curr direction updown
          direction := direction
          out := w.out ++ [w.curr] }
  | .fault => .fault
  | .diverge => .diverge

/-- The macro `triangle_rotation`: `(curr_coordinates[0]+curr_coordinates[1])%2`. -/
def triangle_rotation (curr : Int × Int) : Int :=
  Int.tmod (curr.1 + curr.2) 2

/-- The loop condition of `pathfinding`: the cell is still inside the maze. -/
def inside (map : Map) (curr : Int × Int) : Bool :=
  decide (curr.1 > 0) && decide (curr.2 > 0) && decide (curr.1 ≤ map.rows) &&
    decide (curr.2 ≤ map.cols)

/-- The tail of the loop body of `pathfinding`: the crossed border in the context
of the next triangle (two successive `if`s on `crossed`). -/
def next_direction (crossed : Int) : Int :=
  let direction := crossed
  let direction := if crossed = 2 then 1 else direction
  let direction := if crossed = 1 then 2 else direction
  direction

/-- One pass through the body of the `while` loop of `pathfinding`. -/
def path_step (rotFuel : Nat) (map : Map) (triangle_increment : Int) (w : Walk) :
    Exec Walk :=
  let direction_increment := triangle_increment
  let moved :=
    -- normal triangle
    if triangle_rotation w.curr = 1 then
      cell_movement rotFuel map w direction_increment 0
    -- upside down triangle
    else
      cell_movement rotFuel map w (direction_increment * -1) 2
  match moved with
  | .ok w1 => .ok { w1 with direction := next_direction w1.direction }
  | .fault => .fault
  | .diverge => .diverge

/-- The `while` loop of `pathfinding`. -/
def path_loop (rotFuel : Nat) (map : Map) (triangle_increment : Int) :
    Nat → Walk → Exec Walk
  | 0, w => if inside map w.curr then .diverge else .ok w
  | fuel + 1, w =>
    if inside map w.curr then
      match path_step rotFuel map triangle_increment w with
      | .ok w1 => path_loop rotFuel map triangle_increment fuel w1
      | .fault => .fault
      | .diverge => .diverge
    else .ok w

/-- The function `pathfinding`: the returned `int` and the lines printed. -/
def pathfinding (rotFuel fuel : Nat) (map : Map) (curr : Int × Int) (hand_rule : Int) :
    Exec (Int × List (Int × Int)) :=
  match start_border map curr.1 curr.2 with
  | .ok direction =>
    if direction = -1 then .ok (1, [])
    else
      let triangle_increment : Int := if hand_rule = 0 then -1 else 1
      match path_loop rotFuel map triangle_increment fuel
          { curr := curr, direction := direction, out := [] } with
      | .ok w => .ok (0, w.out)
      | .fault => .fault
      | .diverge => .diverge
  | .fault => .fault
  | .diverge => .diverge

/-- The range check of `main` on the requested entry cell, as written in the source
(the fourth disjunct repeats the test on the row). -/
def entry_out_of_range (map : Map) (curr : Int × Int) : Bool :=
  decide (curr.1 > map.rows) || decide (curr.1 < 1) || decide (curr.2 > map.cols) ||
    decide (curr.1 < 1)

/-- The part of `main` after `load_map` succeeded: exit status and printed lines. -/
def main_after_load (rotFuel fuel : Nat) (map : Map) (curr : Int × Int) (hand_rule : Int) :
    Exec (Int × List (Int × Int)) :=
  if entry_out_of_range map curr then .ok (1, [])
  else
    match pathfinding rotFuel fuel map curr hand_rule with
    | .ok (status, out) =>
      -- the cell could not be accessed
      if status = -1 then .ok (1, out)
      else .ok (0, out)
    | .fault => .fault
    | .diverge => .diverge

/-- A loaded grid: positive dimensions and exactly `rows * cols` codes. -/
def Map.WF (map : Map) : Prop :=
  1 ≤ map.rows ∧ 1 ≤ map.cols ∧ (map.cells.length : Int) = map.rows * map.cols

/-- The cell `(r, c)` lies in `[1, rows] × [1, cols]`. -/
def InGrid (map : Map) (r c : Int) : Prop :=
  1 ≤ r ∧ r ≤ map.rows ∧ 1 ≤ c ∧ c ≤ map.cols

instance (map : Map) : Decidable map.WF := by
  unfold Map.WF; exact inferInstance

instance (map : Map) (r c : Int) : Decidable (InGrid map r c) := by
  unfold InGrid; exact inferInstance


/-- Shared borders agree between neighbouring cells (the comparison attempted by the
disabled `map_validity`): the right border of a cell is the left border of its right
neighbour, and the horizontal border of a normal triangle is the horizontal border
of the cell below it. -/
def Consistent (map : Map) : Prop :=
  ∀ r c : Int, InGrid map r c →
    (c < map.cols → isborder map r c 1 = isborder map r (c + 1) 2) ∧
    (triangle_rotation (r, c) = 1 → r < map.rows →
      isborder map r c 0 = isborder map (r + 1) c 0)

instance (map : Map) : Decidable (Consistent map) :=
  decidable_of_iff
    (∀ i ∈ List.range map.rows.toNat, ∀ j ∈ List.range map.cols.toNat,
      (((j : Int) + 1 < map.cols →
          isborder map ((i : Int) + 1) ((j : Int) + 1) 1 =
            isborder map ((i : Int) + 1) ((j : Int) + 1 + 1) 2) ∧
       (triangle_rotation ((i : Int) + 1, (j : Int) + 1) = 1 → (i : Int) + 1 < map.rows →
          isborder map ((i : Int) + 1) ((j : Int) + 1) 0 =
            isborder map ((i : Int) + 1 + 1) ((j : Int) + 1) 0)))
    (by
      unfold Consistent InGrid
      constructor
      · intro h r c hin
        have hi : (r - 1).toNat ∈ List.range map.rows.toNat := by
          rw [List.mem_range]; omega
        have hj : (c - 1).toNat ∈ List.range map.cols.toNat := by
          rw [List.mem_range]; omega
        have e1 : (((r - 1).toNat : Nat) : Int) + 1 = r := by omega
        have e2 : (((c - 1).toNat : Nat) : Int) + 1 = c := by omega
        have := h _ hi _ hj
        rw [e1, e2] at this
        exact this
      · intro h i hi j hj
        rw [List.mem_range] at hi hj
        exact h _ _ ⟨by omega, by omega, by omega, by omega⟩)

/-- The `updown` argument `pathfinding` passes to `cell_movement` in a cell. -/
def updown (curr : Int × Int) : Nat :=
  if triangle_rotation curr = 1 then 0 else 2

/-- The `direction_increment` argument `pathfinding` passes to `cell_movement` in a
cell, for the increment `triangle_increment` of the chosen rule. -/
def turn (triangle_increment : Int) (curr : Int × Int) : Int :=
  if triangle_rotation curr = 1 then triangle_increment else triangle_increment * -1

/-- The rotation loop of `cell_movement` over an arbitrary border test; `rotation` is
the case where the test is `isborder` in the current cell. -/
def rotate_with (flag : Int → Exec Bool) (direction_increment : Int) :
    Nat → Int → Exec Int
  | 0, _ => .diverge
  | fuel + 1, direction =>
    let direction := Int.tmod (direction + direction_increment + 3) 3
    match flag direction with
    | .ok false => .ok direction
    | .ok true => rotate_with flag direction_increment fuel direction
    | .fault => .fault
    | .diverge => .diverge

/-- A traversal state inside the grid whose current border is passable. -/
def Good (map : Map) (w : Walk) : Prop :=
  InGrid map w.curr.1 w.curr.2 ∧ isborder map w.curr.1 w.curr.2 w.direction = .ok false

/-- The state after one pass of the loop body (the state itself when the pass has no
result). -/
def advance (map : Map) (triangle_increment : Int) (w : Walk) : Walk :=
  match path_step 3 map triangle_increment w with
  | .ok w1 => w1
  | .fault => w
  | .diverge => w

/-- The border `b` of the cell `curr` lies on the outer perimeter: the move across it
leads out of the grid. -/
def OnPerimeter (map : Map) (curr : Int × Int) (b : Int) : Prop :=
  inside map (move_cell curr b (updown curr)) = false

instance (map : Map) (curr : Int × Int) (b : Int) : Decidable (OnPerimeter map curr b) := by
  unfold OnPerimeter; exact inferInstance

/-- The test `triangle_rotation == 1` of `pathfinding`: the cell is a normal triangle,
pointing upward with its horizontal border at the bottom. -/
def isUpward (r c : Int) : Bool :=
  decide (triangle_rotation (r, c) = 1)

/-- The first `n` passes of the `while` loop of `pathfinding`: the state after them, or
the state in which the loop condition failed earlier.  The field `out` of the result is
what has been printed up to that point. -/
def path_passes (rotFuel : Nat) (map : Map) (triangle_increment : Int) :
    Nat → Walk → Exec Walk
  | 0, w => .ok w
  | n + 1, w =>
    if inside map w.curr then
      match path_step rotFuel map triangle_increment w with
      | .ok w1 => path_passes rotFuel map triangle_increment n w1
      | .fault => .fault
      | .diverge => .diverge
    else .ok w

/-- The cell `q` is reached from the cell `p` by crossing a border that is passable in
`p`; the two cells then differ by 1 in one coordinate. -/
def Crossed (map : Map) (p q : Int × Int) : Prop :=
  ∃ b : Int, (b = 0 ∨ b = 1 ∨ b = 2) ∧ isborder map p.1 p.2 b = .ok false ∧
    q = move_cell p b (updown p) ∧ |q.1 - p.1| + |q.2 - p.2| = 1

/-- A printed sequence of cells is a path from the entry cell: it starts with the entry
cell, stays inside the grid, and each cell is reached from the one before it across a
passable border. -/
def PathFrom (map : Map) (entry : Int × Int) (out : List (Int × Int)) : Prop :=
  out.head? = some entry ∧ (∀ p ∈ out, InGrid map p.1 p.2) ∧ List.Chain' (Crossed map) out

/-- The printed cells followed by the current position form a chain of crossings that
starts at the entry cell, and the printed cells are inside the grid. -/
def WalkInv (map : Map) (entry : Int × Int) (w : Walk) : Prop :=
  (w.out ++ [w.curr]).head? = some entry ∧ (∀ p ∈ w.out, InGrid map p.1 p.2) ∧
    List.Chain' (Crossed map) (w.out ++ [w.curr])

/-- A 2 x 2 grid with mixed codes. -/
def grid_mixed : Map := ⟨2, 2, [1, 0, 5, 0]⟩

/-- A 3 x 3 grid without any wall. -/
def grid_open3 : Map := ⟨3, 3, [0, 0, 0, 0, 0, 0, 0, 0, 0]⟩

/-- A 2 x 2 grid without any wall. -/
def grid_open2 : Map := ⟨2, 2, [0, 0, 0, 0]⟩

/-- A 1 x 1 grid whose cell has no wall. -/
def grid_single : Map := ⟨1, 1, [0]⟩

/-- A 1 x 2 grid without any wall. -/
def grid_pair : Map := ⟨1, 2, [0, 0]⟩

/-- A 2 x 3 grid whose only open border is the one shared by `(1,2)` and `(2,2)`. -/
def grid_closed : Map := ⟨2, 3, [7, 3, 7, 7, 3, 7]⟩

/-- A 1 x 1 grid whose cell has only its horizontal border open. -/
def grid_one_cell : Map := ⟨1, 1, [3]⟩

/-- A 2 x 2 grid forming the corridor `(1,1)-(1,2)-(2,2)-(2,1)`. -/
def grid_corridor : Map := ⟨2, 2, [4, 2, 4, 2]⟩

/-- A 1 x 2 grid whose second cell has all three borders closed. -/
def grid_dead_end : Map := ⟨1, 2, [4, 7]⟩

/-- A 2 x 2 grid whose cell `(2,1)` is the only one with walls. -/
def grid_shifted : Map := ⟨2, 2, [0, 0, 7, 0]⟩

/-- A 2 x 2 grid in which every cell has an open border but `(1,2)` and `(2,2)` only
open onto each other. -/
def grid_bounce : Map := ⟨2, 2, [4, 3, 3, 3]⟩

end Maze

/-!
# Phone directory search (`proj1.c`)

A `char` array holding a C string is the list of its characters (their values as `int`)
before the terminating NUL.  An access at an index past these characters has the result
`none`.  The loops `for (i = 0; i < *stringLength; i++)` are recursion on the number of
passes that remain.
-/

namespace Contacts

/-- The body of the loop of `uppercase_to_lowercase` at index `i`. -/
def lowercase_at (currentContact : List Int) (i : Nat) : Option (List Int) :=
  match currentContact[i]? with
  | none => none
  | some ch =>
    if ch ≥ 65 ∧ ch ≤ 90 then some (currentContact.set i (ch + 32))
    else some currentContact

/-- The loop of `uppercase_to_lowercase`: `k` passes remain, the index is `i`. -/
def uppercase_loop : Nat → Nat → List Int → Option (List Int)
  | 0, _, currentContact => some currentContact
  | k + 1, i, currentContact =>
    match lowercase_at currentContact i with
    | none => none
    | some changed => uppercase_loop k (i + 1) changed

/-- The function `uppercase_to_lowercase`: the array `currentContact` afterwards. -/
def uppercase_to_lowercase (currentContact : List Int) (stringLength : Nat) :
    Option (List Int) :=
  uppercase_loop stringLength 0 currentContact

/-- The `switch` of `convert_to_numbers` at index `i`; the case labels are the
character codes of `'a'` (97) to `'z'` (122) and of `'+'` (43), the digits written are
`'2'` (50) to `'9'` (57) and `'0'` (48). -/
def digit_at (convertedContact : List Int) (i : Nat) : Option (List Int) :=
  match convertedContact[i]? with
  | none => none
  | some ch =>
    -- case 'a': case 'b': case 'c':
    if ch = 97 ∨ ch = 98 ∨ ch = 99 then some (convertedContact.set i 50)
    -- case 'd': case 'e': case 'f':
    else if ch = 100 ∨ ch = 101 ∨ ch = 102 then some (convertedContact.set i 51)
    -- case 'g': case 'h': case 'i':
    else if ch = 103 ∨ ch = 104 ∨ ch = 105 then some (convertedContact.set i 52)
    -- case 'j': case 'k': case 'l':
    else if ch = 106 ∨ ch = 107 ∨ ch = 108 then some (convertedContact.set i 53)
    -- case 'm': case 'n': case 'o':
    else if ch = 109 ∨ ch = 110 ∨ ch = 111 then some (convertedContact.set i 54)
    -- case 'p': case 'q': case 'r': case 's':
    else if ch = 112 ∨ ch = 113 ∨ ch = 114 ∨ ch = 115 then some (convertedContact.set i 55)
    -- case 't': case 'u': case 'v':
    else if ch = 116 ∨ ch = 117 ∨ ch = 118 then some (convertedContact.set i 56)
    -- case 'w': case 'x': case 'y': case 'z':
    else if ch = 119 ∨ ch = 120 ∨ ch = 121 ∨ ch = 122 then some (convertedContact.set i 57)
    -- case '+':
    else if ch = 43 then some (convertedContact.set i 48)
    else some convertedContact

/-- The loop of `convert_to_numbers`: `k` passes remain, the index is `i`. -/
def convert_loop : Nat → Nat → List Int → Option (List Int)
  | 0, _, convertedContact => some convertedContact
  | k + 1, i, convertedContact =>
    match digit_at convertedContact i with
    | none => none
    | some changed => convert_loop k (i + 1) changed

/-- The function `convert_to_numbers`: the array `convertedContact` afterwards; `strcpy`
makes it a copy of `currentContact` first. -/
def convert_to_numbers (currentContact : List Int) (stringLength : Nat) :
    Option (List Int) :=
  let convertedContact := currentContact
  convert_loop stringLength 0 convertedContact

/-- The character `uppercase_to_lowercase` leaves at a position that held `ch`. -/
def lower_char (ch : Int) : Int :=
  if ch ≥ 65 ∧ ch ≤ 90 then ch + 32 else ch

/-- The character `convert_to_numbers` leaves at a position that held `ch`. -/
def digit_char (ch : Int) : Int :=
  if ch = 97 ∨ ch = 98 ∨ ch = 99 then 50
  else if ch = 100 ∨ ch = 101 ∨ ch = 102 then 51
  else if ch = 103 ∨ ch = 104 ∨ ch = 105 then 52
  else if ch = 106 ∨ ch = 107 ∨ ch = 108 then 53
  else if ch = 109 ∨ ch = 110 ∨ ch = 111 then 54
  else if ch = 112 ∨ ch = 113 ∨ ch = 114 ∨ ch = 115 then 55
  else if ch = 116 ∨ ch = 117 ∨ ch = 118 then 56
  else if ch = 119 ∨ ch = 120 ∨ ch = 121 ∨ ch = 122 then 57
  else if ch = 43 then 48
  else ch

/-- The shape both loops share: `k` passes from index `i`, each replacing the character
at the index by its image under `g`. -/
def update_loop (g : Int → Int) : Nat → Nat → List Int → Option (List Int)
  | 0, _, a => some a
  | k + 1, i, a =>
    match a[i]? with
    | none => none
    | some ch => update_loop g k (i + 1) (a.set i (g ch))

/-- The character is an ASCII letter, `'A'..'Z'` or `'a'..'z'`. -/
def is_letter (ch : Int) : Prop :=
  (65 ≤ ch ∧ ch ≤ 90) ∨ (97 ≤ ch ∧ ch ≤ 122)

/-- The character is the letter with code `lo..hi` in lower case, or the same letter in
upper case (32 below). -/
def in_group (ch lo hi : Int) : Prop :=
  (lo ≤ ch ∧ ch ≤ hi) ∨ (lo - 32 ≤ ch ∧ ch ≤ hi - 32)

instance (ch : Int) : Decidable (is_letter ch) := by
  unfold is_letter; exact inferInstance

instance (ch lo hi : Int) : Decidable (in_group ch lo hi) := by
  unfold in_group; exact inferInstance

/-- The phone keypad as the specification words it: abc (either case) gives 2, def 3, ghi 4,
jkl 5, mno 6, pqrs 7, tuv 8, wxyz 9, `+` gives 0, and any other character stays. -/
def keypad_spec (ch : Int) : Int :=
  if in_group ch 97 99 then 50
  else if in_group ch 100 102 then 51
  else if in_group ch 103 105 then 52
  else if in_group ch 106 108 then 53
  else if in_group ch 109 111 then 54
  else if in_group ch 112 115 then 55
  else if in_group ch 116 118 then 56
  else if in_group ch 119 122 then 57
  else if ch = 43 then 48
  else ch

end Contacts

namespace Maze

/-! ## Border decoding -/

theorem cell_value_range (map : Map) (r c : Int) (hwf : map.WF) (hin : InGrid map r c) :
    0 ≤ cell_value map r c ∧ cell_value map r c < (map.cells.length : Int) := by
  obtain ⟨hr, hc, hlen⟩ := hwf
  obtain ⟨h1, h2, h3, h4⟩ := hin
  unfold cell_value
  rw [hlen]
  have e1 : 0 ≤ (r - 1) * map.cols := mul_nonneg (by omega) (by omega)
  have e2 : (r - 1) * map.cols ≤ (map.rows - 1) * map.cols :=
    mul_le_mul_of_nonneg_right (by omega) (by omega)
  have e3 : (map.rows - 1) * map.cols = map.rows * map.cols - map.cols := by ring
  constructor <;> omega

theorem read_cell_inGrid (map : Map) (r c : Int) (hwf : map.WF) (hin : InGrid map r c) :
    ∃ v, read_cell map r c = some v := by
  obtain ⟨h0, h1⟩ := cell_value_range map r c hwf hin
  have hlt : (cell_value map r c).toNat < map.cells.length := by omega
  refine ⟨map.cells[(cell_value map r c).toNat], ?_⟩
  unfold read_cell
  rw [if_neg (by omega)]
  exact List.getElem?_eq_getElem hlt

theorem tmod_eight (code : Nat) : Int.tmod (code : Int) 8 = ((code % 8 : Nat) : Int) := by
  rw [Int.tmod_eq_emod (by omega) (by omega)]
  omega

theorem decode_mod (code : Nat) : decode code = decode (code % 8) := by
  unfold decode
  simp only [tmod_eight, Nat.mod_mod]

theorem decode_bits (code : Nat) :
    decode code = ((code % 8).testBit 2, (code % 8).testBit 1, (code % 8).testBit 0) := by
  rw [decode_mod]
  have h : code % 8 < 8 := Nat.mod_lt _ (by decide)
  generalize code % 8 = k at h
  interval_cases k <;> decide

theorem isborder_of_read (map : Map) (r c : Int) (v : Nat) (h : read_cell map r c = some v)
    (b : Int) : isborder map r c b = border_flag (decode v) b := by
  unfold isborder
  rw [h]


theorem isborder_ok (map : Map) (r c : Int) (hwf : map.WF) (hin : InGrid map r c) :
    ∃ v, read_cell map r c = some v ∧
      isborder map r c 0 = .ok (decode v).1 ∧
      isborder map r c 1 = .ok (decode v).2.1 ∧
      isborder map r c 2 = .ok (decode v).2.2 := by
  obtain ⟨v, hv⟩ := read_cell_inGrid map r c hwf hin
  exact ⟨v, hv, by rw [isborder_of_read map r c v hv]; rfl,
    by rw [isborder_of_read map r c v hv]; rfl, by rw [isborder_of_read map r c v hv]; rfl⟩

/-! ## Claims on `isborder` and `start_border` -/

/-- C1: for an in-grid cell `(r, c)` of a loaded grid, `isborder` reads the code `v`
at row-major index `(r-1)*cols + (c-1)` (which is a valid index) and returns bit 2 of
`v mod 8` for border 0, bit 1 for border 1 and bit 0 for border 2. -/
theorem isborder_returns_bits (map : Map) (r c : Int) (hwf : map.WF)
    (hin : InGrid map r c) :
    0 ≤ (r - 1) * map.cols + (c - 1) ∧
    (r - 1) * map.cols + (c - 1) < map.rows * map.cols ∧
    ∃ v, map.cells[((r - 1) * map.cols + (c - 1)).toNat]? = some v ∧
      isborder map r c 0 = .ok ((v % 8).testBit 2) ∧
      isborder map r c 1 = .ok ((v % 8).testBit 1) ∧
      isborder map r c 2 = .ok ((v % 8).testBit 0) := by
  obtain ⟨h0, h1⟩ := cell_value_range map r c hwf hin
  have hidx : (r - 1) * map.cols + (c - 1) = cell_value map r c := by
    unfold cell_value; ring
  obtain ⟨v, hv, b0, b1, b2⟩ := isborder_ok map r c hwf hin
  rw [decode_bits] at b0 b1 b2
  refine ⟨by omega, by rw [hidx, ← hwf.2.2]; exact h1, v, ?_, b0, b1, b2⟩
  rw [hidx]
  unfold read_cell at hv
  rw [if_neg (by omega)] at hv
  exact hv

theorem isborder_returns_bits_witness :
    grid_mixed.WF ∧ InGrid grid_mixed 2 1 ∧
    (0 ≤ ((2 : Int) - 1) * grid_mixed.cols + (1 - 1) ∧
     ((2 : Int) - 1) * grid_mixed.cols + (1 - 1) < grid_mixed.rows * grid_mixed.cols ∧
     ∃ v, grid_mixed.cells[(((2 : Int) - 1) * grid_mixed.cols + (1 - 1)).toNat]? = some v ∧
      isborder grid_mixed 2 1 0 = .ok ((v % 8).testBit 2) ∧
      isborder grid_mixed 2 1 1 = .ok ((v % 8).testBit 1) ∧
      isborder grid_mixed 2 1 2 = .ok ((v % 8).testBit 0)) :=
  ⟨by decide, by decide, isborder_returns_bits grid_mixed 2 1 (by decide) (by decide)⟩

/-- C2: the decoder is injective on the codes 0..7 (eight pairwise distinct flag
triples), and the flags of `code + 8k` are the flags of `code`. -/
theorem decode_distinct_and_periodic :
    Function.Injective (fun a : Fin 8 => decode a.val) ∧
    ∀ code k : Nat, decode (code + 8 * k) = decode code := by
  constructor
  · intro a b
    revert a b
    decide
  · intro code k
    rw [decode_mod (code + 8 * k), decode_mod code, Nat.add_mul_mod_self_left]

/-- C3: a cell strictly inside the grid is rejected by `start_border`, without any
look at its code. -/
theorem start_border_rejects_interior (map : Map) (r c : Int)
    (hr : 1 < r ∧ r < map.rows) (hc : 1 < c ∧ c < map.cols) :
    start_border map r c = .ok (-1) := by
  unfold start_border
  rw [if_neg (by omega), if_neg (by omega), if_neg (by omega)]

theorem start_border_rejects_interior_witness :
    ((1 : Int) < 2 ∧ (2 : Int) < grid_open3.rows) ∧
    ((1 : Int) < 2 ∧ (2 : Int) < grid_open3.cols) ∧
    start_border grid_open3 2 2 = .ok (-1) :=
  ⟨by decide, by decide,
    start_border_rejects_interior grid_open3 2 2 (by decide) (by decide)⟩

/-- C4: in column 1 of a loaded grid `start_border` returns 2 when the left border is
passable, else 0 when the row is 1 or `rows` and the horizontal border is passable,
else -1. -/
theorem start_border_first_column (map : Map) (r : Int) (hwf : map.WF)
    (hin : InGrid map r 1) :
    ∃ l h, isborder map r 1 2 = .ok l ∧ isborder map r 1 0 = .ok h ∧
      start_border map r 1 =
        .ok (if l = false then 2
             else if (r = 1 ∨ r = map.rows) ∧ h = false then 0 else -1) := by
  obtain ⟨v, _, b0, _, b2⟩ := isborder_ok map r 1 hwf hin
  refine ⟨_, _, b2, b0, ?_⟩
  unfold start_border
  rw [if_pos rfl, b2, b0]
  by_cases hr : r = 1 ∨ r = map.rows <;>
    cases (decode v).2.2 <;> cases (decode v).1 <;> simp [hr]

theorem start_border_first_column_witness :
    grid_mixed.WF ∧ InGrid grid_mixed 1 1 ∧
    ∃ l h, isborder grid_mixed 1 1 2 = .ok l ∧ isborder grid_mixed 1 1 0 = .ok h ∧
      start_border grid_mixed 1 1 =
        .ok (if l = false then 2
             else if ((1 : Int) = 1 ∨ (1 : Int) = grid_mixed.rows) ∧ h = false then 0
             else -1) :=
  ⟨by decide, by decide, start_border_first_column grid_mixed 1 (by decide) (by decide)⟩

/-- C5 as stated fails on a single-column grid: in the 1 x 1 grid with code 0 the cell
`(1, 1)` is in the last column and its right border is passable, yet `start_border`
returns 2, not 1. -/
theorem start_border_last_column_single_column :
    grid_single.WF ∧ InGrid grid_single 1 grid_single.cols ∧
    isborder grid_single 1 grid_single.cols 1 = .ok false ∧
    start_border grid_single 1 grid_single.cols = .ok 2 := by
  decide

/-- C5, amended: in the last column of a loaded grid with more than one column
`start_border` returns 1 when the right border is passable, else 0 when the row is 1
or `rows` and the horizontal border is passable, else -1. -/
theorem start_border_last_column (map : Map) (r : Int) (hwf : map.WF)
    (hin : InGrid map r map.cols) (hcols : map.cols ≠ 1) :
    ∃ rt h, isborder map r map.cols 1 = .ok rt ∧ isborder map r map.cols 0 = .ok h ∧
      start_border map r map.cols =
        .ok (if rt = false then 1
             else if (r = 1 ∨ r = map.rows) ∧ h = false then 0 else -1) := by
  obtain ⟨v, _, b0, b1, _⟩ := isborder_ok map r map.cols hwf hin
  refine ⟨_, _, b1, b0, ?_⟩
  unfold start_border
  rw [if_neg hcols, if_pos rfl, b1, b0]
  by_cases hr : r = 1 ∨ r = map.rows <;>
    cases (decode v).2.1 <;> cases (decode v).1 <;> simp [hr]

theorem start_border_last_column_witness :
    grid_mixed.WF ∧ InGrid grid_mixed 2 grid_mixed.cols ∧ grid_mixed.cols ≠ 1 ∧
    ∃ rt h, isborder grid_mixed 2 grid_mixed.cols 1 = .ok rt ∧
      isborder grid_mixed 2 grid_mixed.cols 0 = .ok h ∧
      start_border grid_mixed 2 grid_mixed.cols =
        .ok (if rt = false then 1
             else if ((2 : Int) = 1 ∨ (2 : Int) = grid_mixed.rows) ∧ h = false then 0
             else -1) :=
  ⟨by decide, by decide, by decide,
    start_border_last_column grid_mixed 2 (by decide) (by decide) (by decide)⟩

/-- C6: on the top or bottom row, strictly between the first and the last column,
`start_border` returns 0 when the horizontal border is passable and -1 otherwise. -/
theorem start_border_top_bottom (map : Map) (r c : Int) (hwf : map.WF)
    (hin : InGrid map r c) (hc : 1 < c ∧ c < map.cols) (hr : r = 1 ∨ r = map.rows) :
    ∃ h, isborder map r c 0 = .ok h ∧
      (h = false → start_border map r c = .ok 0) ∧
      (h = true → start_border map r c = .ok (-1)) ∧
      (start_border map r c = .ok 0 ↔ h = false) := by
  obtain ⟨v, _, b0, _, _⟩ := isborder_ok map r c hwf hin
  refine ⟨_, b0, ?_⟩
  unfold start_border
  rw [if_neg (by omega), if_neg (by omega), if_pos hr, b0]
  cases (decode v).1 <;> simp

theorem start_border_top_bottom_witness :
    grid_open3.WF ∧ InGrid grid_open3 3 2 ∧ ((1 : Int) < 2 ∧ (2 : Int) < grid_open3.cols) ∧
    ((3 : Int) = 1 ∨ (3 : Int) = grid_open3.rows) ∧
    ∃ h, isborder grid_open3 3 2 0 = .ok h ∧
      (h = false → start_border grid_open3 3 2 = .ok 0) ∧
      (h = true → start_border grid_open3 3 2 = .ok (-1)) ∧
      (start_border grid_open3 3 2 = .ok 0 ↔ h = false) :=
  ⟨by decide, by decide, by decide, by decide,
    start_border_top_bottom grid_open3 3 2 (by decide) (by decide) (by decide) (by decide)⟩

/-! ## Claims on `main` and `pathfinding` -/

/-- C7: the range check of `main` lets a column of 0 through.  On the open 2 x 2 grid
with requested entry `(2, 0)` the check does not reject, `start_border` is run and
reads the code of another cell, and `main` ends with status 0. -/
theorem main_accepts_column_zero :
    grid_open2.WF ∧ ¬ InGrid grid_open2 2 0 ∧
    entry_out_of_range grid_open2 (2, 0) = false ∧
    start_border grid_open2 2 0 = .ok 0 ∧
    read_cell grid_open2 2 0 = grid_open2.cells[1]? ∧
    (∀ rotFuel fuel hand_rule,
      main_after_load rotFuel fuel grid_open2 (2, 0) hand_rule = .ok (0, [])) := by
  refine ⟨by decide, by decide, by decide, by decide, by decide, ?_⟩
  intro rotFuel fuel hand_rule
  have hs : start_border grid_open2 2 0 = .ok 0 := by decide
  have hl : ∀ t, path_loop rotFuel grid_open2 t fuel ⟨(2, 0), 0, []⟩ = .ok ⟨(2, 0), 0, []⟩ := by
    intro t
    cases fuel <;> simp [path_loop, inside]
  have hr : entry_out_of_range grid_open2 (2, 0) = false := by decide
  simp [main_after_load, pathfinding, hs, hl, hr]

/-- C8: a rejected in-grid entry is not fatal for `main`.  On the open 3 x 3 grid the
interior cell `(2, 2)` is rejected by `start_border`; `pathfinding` prints nothing and
returns 1, which `main` (testing for -1) does not recognise: the exit status is 0. -/
theorem main_ignores_rejected_entry :
    grid_open3.WF ∧ InGrid grid_open3 2 2 ∧
    start_border grid_open3 2 2 = .ok (-1) ∧
    (∀ rotFuel fuel hand_rule,
      pathfinding rotFuel fuel grid_open3 (2, 2) hand_rule = .ok (1, []) ∧
      main_after_load rotFuel fuel grid_open3 (2, 2) hand_rule = .ok (0, [])) := by
  refine ⟨by decide, by decide, by decide, ?_⟩
  intro rotFuel fuel hand_rule
  have hs : start_border grid_open3 2 2 = .ok (-1) := by decide
  have hp : pathfinding rotFuel fuel grid_open3 (2, 2) hand_rule = .ok (1, []) := by
    simp [pathfinding, hs]
  refine ⟨hp, ?_⟩
  have hr : entry_out_of_range grid_open3 (2, 2) = false := by decide
  simp [main_after_load, hp, hr]

/-- C10: on the open 1 x 2 grid entered at `(1, 1)` (accepted through the left border)
the right-hand rule prints `(1,1), (1,2)` and the left-hand rule prints `(1,1)`; both
runs end with status 0, so some grid and accepted entry give different sequences. -/
theorem right_and_left_rule_differ :
    (start_border grid_pair 1 1 = .ok 2 ∧
     pathfinding 3 2 grid_pair (1, 1) 1 = .ok (0, [(1, 1), (1, 2)]) ∧
     pathfinding 3 2 grid_pair (1, 1) 0 = .ok (0, [(1, 1)])) ∧
    ∃ (map : Map) (r c : Int) (b : Int) (outR outL : List (Int × Int)),
      map.WF ∧ InGrid map r c ∧ start_border map r c = .ok b ∧ b ≠ -1 ∧
      (∃ rotFuel fuel, pathfinding rotFuel fuel map (r, c) 1 = .ok (0, outR)) ∧
      (∃ rotFuel fuel, pathfinding rotFuel fuel map (r, c) 0 = .ok (0, outL)) ∧
      outR ≠ outL := by
  refine ⟨by decide, grid_pair, 1, 1, 2, [(1, 1), (1, 2)], [(1, 1)], by decide, by decide,
    by decide, by decide, ⟨3, 2, by decide⟩, ⟨3, 2, by decide⟩, by decide⟩

/-! ## Termination of the traversal -/

theorem rotation_eq_rotate_with (map : Map) (curr : Int × Int) (s : Int) (fuel : Nat)
    (d : Int) :
    rotation map curr s fuel d = rotate_with (isborder map curr.1 curr.2) s fuel d := by
  induction fuel generalizing d with
  | zero => rfl
  | succ n ih =>
    unfold rotation rotate_with
    simp only []
    split <;> simp_all

theorem border_flag_index (F : Bool × Bool × Bool) (d : Int) (x : Bool)
    (h : border_flag F d = .ok x) : d = 0 ∨ d = 1 ∨ d = 2 := by
  unfold border_flag at h
  by_cases h0 : d = 0
  · exact Or.inl h0
  by_cases h1 : d = 1
  · exact Or.inr (Or.inl h1)
  by_cases h2 : d = 2
  · exact Or.inr (Or.inr h2)
  rw [if_neg h0, if_neg h1, if_neg h2] at h
  cases h

theorem rotate_three_cases (F : Bool × Bool × Bool) (s d : Int) (hs : s = 1 ∨ s = -1)
    (ho : border_flag F d = .ok false) :
    (rotate_with (border_flag F) s 3 d = .ok 0 ∧ border_flag F 0 = .ok false) ∨
    (rotate_with (border_flag F) s 3 d = .ok 1 ∧ border_flag F 1 = .ok false) ∨
    (rotate_with (border_flag F) s 3 d = .ok 2 ∧ border_flag F 2 = .ok false) := by
  obtain ⟨h, rt, l⟩ := F
  have hd := border_flag_index _ _ _ ho
  rcases hs with rfl | rfl <;> rcases hd with rfl | rfl | rfl <;>
    cases h <;> cases rt <;> cases l <;> revert ho <;> decide

theorem rotate_three (F : Bool × Bool × Bool) (s d : Int) (hs : s = 1 ∨ s = -1)
    (ho : border_flag F d = .ok false) :
    ∃ b, (b = 0 ∨ b = 1 ∨ b = 2) ∧ rotate_with (border_flag F) s 3 d = .ok b ∧
      border_flag F b = .ok false := by
  rcases rotate_three_cases F s d hs ho with ⟨h1, h2⟩ | ⟨h1, h2⟩ | ⟨h1, h2⟩
  · exact ⟨0, Or.inl rfl, h1, h2⟩
  · exact ⟨1, Or.inr (Or.inl rfl), h1, h2⟩
  · exact ⟨2, Or.inr (Or.inr rfl), h1, h2⟩

theorem rotate_three_inj (F : Bool × Bool × Bool) (s d1 d2 : Int) (hs : s = 1 ∨ s = -1)
    (o1 : border_flag F d1 = .ok false) (o2 : border_flag F d2 = .ok false)
    (e : rotate_with (border_flag F) s 3 d1 = rotate_with (border_flag F) s 3 d2) :
    d1 = d2 := by
  obtain ⟨h, rt, l⟩ := F
  have h1 := border_flag_index _ _ _ o1
  have h2 := border_flag_index _ _ _ o2
  rcases hs with rfl | rfl <;> rcases h1 with rfl | rfl | rfl <;>
    rcases h2 with rfl | rfl | rfl <;>
    cases h <;> cases rt <;> cases l <;> revert o1 o2 e <;> decide

theorem path_step_eq (rotFuel : Nat) (map : Map) (t : Int) (w : Walk) :
    path_step rotFuel map t w =
      match cell_movement rotFuel map w (turn t w.curr) (updown w.curr) with
      | .ok w1 => .ok { w1 with direction := next_direction w1.direction }
      | .fault => .fault
      | .diverge => .diverge := by
  unfold path_step turn updown
  by_cases h : triangle_rotation w.curr = 1 <;> simp [h]

theorem turn_sign (t : Int) (curr : Int × Int) (ht : t = 1 ∨ t = -1) :
    turn t curr = 1 ∨ turn t curr = -1 := by
  unfold turn
  rcases ht with rfl | rfl <;> split <;> simp

theorem path_step_good (map : Map) (t : Int) (w : Walk) (hwf : map.WF)
    (ht : t = 1 ∨ t = -1) (hg : Good map w) :
    ∃ v b, read_cell map w.curr.1 w.curr.2 = some v ∧ (b = 0 ∨ b = 1 ∨ b = 2) ∧
      border_flag (decode v) w.direction = .ok false ∧
      rotate_with (border_flag (decode v)) (turn t w.curr) 3 w.direction = .ok b ∧
      isborder map w.curr.1 w.curr.2 b = .ok false ∧
      path_step 3 map t w =
        .ok ⟨move_cell w.curr b (updown w.curr), next_direction b, w.out ++ [w.curr]⟩ := by
  obtain ⟨hin, hopen⟩ := hg
  obtain ⟨v, hv⟩ := read_cell_inGrid map _ _ hwf hin
  have hfun : isborder map w.curr.1 w.curr.2 = border_flag (decode v) :=
    funext (isborder_of_read map _ _ v hv)
  rw [hfun] at hopen
  obtain ⟨b, hb, hrot, hbo⟩ := rotate_three (decode v) (turn t w.curr) w.direction
    (turn_sign t w.curr ht) hopen
  refine ⟨v, b, hv, hb, hopen, hrot, by rw [hfun]; exact hbo, ?_⟩
  rw [path_step_eq]
  unfold cell_movement
  rw [rotation_eq_rotate_with, hfun, hrot]

theorem triangle_rotation_eq (r c : Int) (h : 0 ≤ r + c) :
    triangle_rotation (r, c) = (r + c) % 2 := by
  unfold triangle_rotation
  exact Int.tmod_eq_emod h (by decide)

theorem move_cell_zero (r c : Int) :
    move_cell (r, c) 0 (updown (r, c)) =
      if triangle_rotation (r, c) = 1 then (r + 1, c) else (r - 1, c) := by
  unfold updown
  split
  · simp [move_cell, add_move, moves]
  · simp [move_cell, add_move, moves]
    ring

theorem move_cell_one (r c : Int) (k : Nat) : move_cell (r, c) 1 k = (r, c + 1) := by
  simp [move_cell, add_move, moves, d_right]

theorem move_cell_two (r c : Int) (k : Nat) : move_cell (r, c) 2 k = (r, c - 1) := by
  simp [move_cell, add_move, moves, d_left]
  ring

theorem inside_iff (map : Map) (r c : Int) : inside map (r, c) = true ↔ InGrid map r c := by
  unfold inside InGrid
  simp only [Bool.and_eq_true, decide_eq_true_eq]
  constructor
  · rintro ⟨⟨⟨h1, h2⟩, h3⟩, h4⟩
    exact ⟨by omega, h3, by omega, h4⟩
  · rintro ⟨h1, h2, h3, h4⟩
    exact ⟨⟨⟨by omega, by omega⟩, h2⟩, h4⟩

theorem next_direction_cases :
    next_direction 0 = 0 ∧ next_direction 1 = 2 ∧ next_direction 2 = 1 := by decide

/-- Crossing back over the border just crossed returns to the cell one came from. -/
theorem move_cell_back (r c b : Int) (hr : 1 ≤ r) (hc : 1 ≤ c)
    (hb : b = 0 ∨ b = 1 ∨ b = 2)
    (h1 : 1 ≤ (move_cell (r, c) b (updown (r, c))).1)
    (h2 : 1 ≤ (move_cell (r, c) b (updown (r, c))).2) :
    move_cell (move_cell (r, c) b (updown (r, c))) (next_direction b)
      (updown (move_cell (r, c) b (updown (r, c)))) = (r, c) := by
  obtain ⟨n0, n1, n2⟩ := next_direction_cases
  rcases hb with rfl | rfl | rfl
  · rw [n0]
    have hp := triangle_rotation_eq r c (by omega)
    by_cases hodd : triangle_rotation (r, c) = 1
    · have hm : move_cell (r, c) 0 (updown (r, c)) = (r + 1, c) := by
        rw [move_cell_zero, if_pos hodd]
      rw [hm] at h1 h2 ⊢
      have hq := triangle_rotation_eq (r + 1) c (by omega)
      rw [move_cell_zero, if_neg (by omega)]
      simp
    · have hm : move_cell (r, c) 0 (updown (r, c)) = (r - 1, c) := by
        rw [move_cell_zero, if_neg hodd]
      rw [hm] at h1 h2 ⊢
      simp only at h1 h2
      have hq := triangle_rotation_eq (r - 1) c (by omega)
      rw [move_cell_zero, if_pos (by omega)]
      simp
  · rw [n1, move_cell_one, move_cell_two]
    simp
  · rw [n2, move_cell_two, move_cell_one]
    simp

/-- In a consistent grid the border crossed into a cell is passable in that cell. -/
theorem entered_border_open (map : Map) (r c b : Int) (hcons : Consistent map)
    (hin : InGrid map r c) (hb : b = 0 ∨ b = 1 ∨ b = 2)
    (hopen : isborder map r c b = .ok false)
    (hnew : InGrid map (move_cell (r, c) b (updown (r, c))).1
      (move_cell (r, c) b (updown (r, c))).2) :
    isborder map (move_cell (r, c) b (updown (r, c))).1
      (move_cell (r, c) b (updown (r, c))).2 (next_direction b) = .ok false := by
  obtain ⟨n0, n1, n2⟩ := next_direction_cases
  obtain ⟨i1, i2, i3, i4⟩ := hin
  rcases hb with rfl | rfl | rfl
  · rw [n0]
    have hp := triangle_rotation_eq r c (by omega)
    by_cases hodd : triangle_rotation (r, c) = 1
    · have hm : move_cell (r, c) 0 (updown (r, c)) = (r + 1, c) := by
        rw [move_cell_zero, if_pos hodd]
      rw [hm] at hnew ⊢
      obtain ⟨j1, j2, j3, j4⟩ := hnew
      simp only at j1 j2 j3 j4 ⊢
      rw [← (hcons r c ⟨i1, i2, i3, i4⟩).2 hodd (by omega)]
      exact hopen
    · have hm : move_cell (r, c) 0 (updown (r, c)) = (r - 1, c) := by
        rw [move_cell_zero, if_neg hodd]
      rw [hm] at hnew ⊢
      obtain ⟨j1, j2, j3, j4⟩ := hnew
      simp only at j1 j2 j3 j4 ⊢
      have hq := triangle_rotation_eq (r - 1) c (by omega)
      have hc := (hcons (r - 1) c ⟨j1, j2, j3, j4⟩).2 (by omega) (by omega)
      rw [hc, sub_add_cancel]
      exact hopen
  · rw [n1]
    rw [move_cell_one] at hnew ⊢
    obtain ⟨j1, j2, j3, j4⟩ := hnew
    simp only at j1 j2 j3 j4 ⊢
    rw [← (hcons r c ⟨i1, i2, i3, i4⟩).1 (by omega)]
    exact hopen
  · rw [n2]
    rw [move_cell_two] at hnew ⊢
    obtain ⟨j1, j2, j3, j4⟩ := hnew
    simp only at j1 j2 j3 j4 ⊢
    have hc := (hcons r (c - 1) ⟨j1, j2, j3, j4⟩).1 (by omega)
    rw [hc, sub_add_cancel]
    exact hopen

theorem next_direction_inj (a b : Int) (ha : a = 0 ∨ a = 1 ∨ a = 2)
    (hb : b = 0 ∨ b = 1 ∨ b = 2) (h : next_direction a = next_direction b) : a = b := by
  rcases ha with rfl | rfl | rfl <;> rcases hb with rfl | rfl | rfl <;>
    revert h <;> decide

theorem advance_good (map : Map) (t : Int) (w : Walk) (hwf : map.WF)
    (ht : t = 1 ∨ t = -1) (hg : Good map w) :
    ∃ v b, read_cell map w.curr.1 w.curr.2 = some v ∧ (b = 0 ∨ b = 1 ∨ b = 2) ∧
      border_flag (decode v) w.direction = .ok false ∧
      rotate_with (border_flag (decode v)) (turn t w.curr) 3 w.direction = .ok b ∧
      isborder map w.curr.1 w.curr.2 b = .ok false ∧
      path_step 3 map t w = .ok (advance map t w) ∧
      advance map t w =
        ⟨move_cell w.curr b (updown w.curr), next_direction b, w.out ++ [w.curr]⟩ := by
  obtain ⟨v, b, h1, h2, h3, h4, h5, h6⟩ := path_step_good map t w hwf ht hg
  have ha : advance map t w =
      ⟨move_cell w.curr b (updown w.curr), next_direction b, w.out ++ [w.curr]⟩ := by
    unfold advance
    rw [h6]
  exact ⟨v, b, h1, h2, h3, h4, h5, by rw [h6, ha], ha⟩

/-- In a consistent grid a pass of the loop body that stays inside leads to a state
whose current border is passable. -/
theorem advance_preserves_good (map : Map) (t : Int) (w : Walk) (hwf : map.WF)
    (hcons : Consistent map) (ht : t = 1 ∨ t = -1) (hg : Good map w)
    (hin : inside map (advance map t w).curr = true) : Good map (advance map t w) := by
  obtain ⟨v, b, _, hb, _, _, hopen, _, ha⟩ := advance_good map t w hwf ht hg
  obtain ⟨⟨r, c⟩, d, out⟩ := w
  rw [ha] at hin ⊢
  have hin2 := (inside_iff map _ _).1 hin
  exact ⟨hin2, entered_border_open map r c b hcons hg.1 hb hopen hin2⟩

/-- The loop body is injective on states with a passable current border: the position
and border after the pass determine the position and border before it. -/
theorem advance_injective (map : Map) (t : Int) (w1 w2 : Walk) (hwf : map.WF)
    (ht : t = 1 ∨ t = -1) (hg1 : Good map w1) (hg2 : Good map w2)
    (hin : inside map (advance map t w1).curr = true)
    (hc : (advance map t w1).curr = (advance map t w2).curr)
    (hd : (advance map t w1).direction = (advance map t w2).direction) :
    w1.curr = w2.curr ∧ w1.direction = w2.direction := by
  obtain ⟨v1, b1, hv1, hb1, ho1, hr1, _, _, ha1⟩ := advance_good map t w1 hwf ht hg1
  obtain ⟨v2, b2, hv2, hb2, ho2, hr2, _, _, ha2⟩ := advance_good map t w2 hwf ht hg2
  obtain ⟨⟨r1, c1⟩, d1, out1⟩ := w1
  obtain ⟨⟨r2, c2⟩, d2, out2⟩ := w2
  rw [ha1] at hin
  rw [ha1, ha2] at hc hd
  simp only at hc hd hin hv1 hv2 ho1 ho2 hr1 hr2 ⊢
  have hbb : b1 = b2 := next_direction_inj b1 b2 hb1 hb2 hd
  subst hbb
  obtain ⟨i1, _, i3, _⟩ := hg1.1
  obtain ⟨j1, _, j3, _⟩ := hg2.1
  have hin2 := (inside_iff map _ _).1 hin
  have back1 := move_cell_back r1 c1 b1 i1 i3 hb1 hin2.1 hin2.2.2.1
  have back2 := move_cell_back r2 c2 b1 j1 j3 hb2 (by rw [← hc]; exact hin2.1)
    (by rw [← hc]; exact hin2.2.2.1)
  have hpos : (r1, c1) = (r2, c2) := by
    rw [← back1, ← back2, hc]
  have hr : r1 = r2 := congrArg Prod.fst hpos
  have hcc : c1 = c2 := congrArg Prod.snd hpos
  subst hr hcc
  rw [hv1] at hv2
  have hv : v1 = v2 := Option.some.inj hv2
  subst hv
  refine ⟨rfl, ?_⟩
  exact rotate_three_inj (decode v1) (turn t (r1, c1)) d1 d2 (turn_sign t _ ht) ho1 ho2
    (by rw [hr1, hr2])

/-- A state that sits in a cell with a perimeter border as current border is not
reached by a pass of the loop body from a state inside the grid. -/
theorem entry_has_no_predecessor (map : Map) (t : Int) (w : Walk) (p : Int × Int) (b0 : Int)
    (hwf : map.WF) (ht : t = 1 ∨ t = -1) (hg : Good map w) (hp : InGrid map p.1 p.2)
    (hper : OnPerimeter map p b0)
    (hc : (advance map t w).curr = p) (hd : (advance map t w).direction = b0) : False := by
  obtain ⟨v, b, _, hb, _, _, _, _, ha⟩ := advance_good map t w hwf ht hg
  obtain ⟨⟨r, c⟩, d, out⟩ := w
  rw [ha] at hc hd
  simp only at hc hd
  obtain ⟨i1, i2, i3, i4⟩ := hg.1
  have back := move_cell_back r c b i1 i3 hb (by rw [hc]; exact hp.1) (by rw [hc]; exact hp.2.2.1)
  rw [hc, hd] at back
  unfold OnPerimeter at hper
  rw [back] at hper
  have : inside map (r, c) = true := (inside_iff map r c).2 ⟨i1, i2, i3, i4⟩
  rw [this] at hper
  cases hper

theorem good_direction (map : Map) (w : Walk) (hwf : map.WF) (hg : Good map w) :
    w.direction = 0 ∨ w.direction = 1 ∨ w.direction = 2 := by
  obtain ⟨v, hv⟩ := read_cell_inGrid map _ _ hwf hg.1
  have h := hg.2
  rw [isborder_of_read map _ _ v hv] at h
  exact border_flag_index _ _ _ h

theorem iterates_good (map : Map) (t : Int) (w : Walk) (hwf : map.WF)
    (hcons : Consistent map) (ht : t = 1 ∨ t = -1) (hg : Good map w) (n : Nat)
    (hin : ∀ m, m ≤ n → inside map ((advance map t)^[m] w).curr = true) :
    ∀ m, m ≤ n → Good map ((advance map t)^[m] w) := by
  intro m
  induction m with
  | zero => intro _; exact hg
  | succ k ih =>
    intro hk
    rw [Function.iterate_succ_apply']
    apply advance_preserves_good map t _ hwf hcons ht (ih (by omega))
    have := hin (k + 1) hk
    rwa [Function.iterate_succ_apply'] at this

/-- A walk that starts at a perimeter border of a consistent grid leaves the grid. -/
theorem walk_leaves_grid (map : Map) (t : Int) (w : Walk) (hwf : map.WF)
    (hcons : Consistent map) (ht : t = 1 ∨ t = -1) (hg : Good map w)
    (hper : OnPerimeter map w.curr w.direction) :
    ∃ n, inside map ((advance map t)^[n] w).curr = false := by
  by_contra hne
  have hall : ∀ n, inside map ((advance map t)^[n] w).curr = true := by
    intro n
    by_contra h
    exact hne ⟨n, by simpa using h⟩
  have hgood : ∀ n, Good map ((advance map t)^[n] w) := fun n =>
    iterates_good map t w hwf hcons ht hg n (fun m _ => hall m) n le_rfl
  -- the visited (cell, border) pairs lie in a finite set
  let key : Nat → (Int × Int) × Int := fun n =>
    (((advance map t)^[n] w).curr, ((advance map t)^[n] w).direction)
  have hfin : ((Set.Icc (1 : Int) map.rows ×ˢ Set.Icc (1 : Int) map.cols) ×ˢ
      Set.Icc (0 : Int) 2).Finite :=
    ((Set.finite_Icc _ _).prod (Set.finite_Icc _ _)).prod (Set.finite_Icc _ _)
  have hmem : ∀ n, key n ∈ (Set.Icc (1 : Int) map.rows ×ˢ Set.Icc (1 : Int) map.cols) ×ˢ
      Set.Icc (0 : Int) 2 := by
    intro n
    obtain ⟨i1, i2, i3, i4⟩ := (hgood n).1
    have hd := good_direction map _ hwf (hgood n)
    simp only [key, Set.mem_prod, Set.mem_Icc]
    exact ⟨⟨⟨i1, i2⟩, ⟨i3, i4⟩⟩, by omega, by omega⟩
  obtain ⟨i, j, hij, hkey⟩ := hfin.exists_lt_map_eq_of_forall_mem hmem
  -- injectivity pulls the repetition back to the start
  have hback : ∀ i d, key (i + d) = key i → key d = key 0 := by
    intro i
    induction i with
    | zero => intro d h; simpa using h
    | succ k ih =>
      intro d h
      apply ih d
      have e1 : k + 1 + d = (k + d) + 1 := by omega
      rw [e1] at h
      simp only [key, Prod.mk.injEq] at h ⊢
      rw [Function.iterate_succ_apply', Function.iterate_succ_apply'] at h
      have hinj := advance_injective map t _ _ hwf ht (hgood (k + d)) (hgood k)
        (by have := hall (k + d + 1); rwa [Function.iterate_succ_apply'] at this) h.1 h.2
      exact hinj
  obtain ⟨d, rfl⟩ : ∃ d, j = i + (d + 1) := ⟨j - i - 1, by omega⟩
  have h0 := hback i (d + 1) hkey.symm
  simp only [key, Prod.mk.injEq, Function.iterate_zero, id_eq] at h0
  rw [Function.iterate_succ_apply'] at h0
  exact entry_has_no_predecessor map t _ w.curr w.direction hwf ht (hgood d) hg.1 hper
    h0.1 h0.2

/-- While the states stay good, `path_loop` with `n` units of fuel follows the iterates
of the loop body and stops at the first one outside the grid. -/
theorem path_loop_follows (map : Map) (t : Int) (hwf : map.WF) (ht : t = 1 ∨ t = -1)
    (n : Nat) : ∀ w : Walk,
      (∀ m, m < n → Good map ((advance map t)^[m] w)) →
      inside map ((advance map t)^[n] w).curr = false →
      path_loop 3 map t n w = .ok ((advance map t)^[n] w) := by
  induction n with
  | zero =>
    intro w _ hout
    simp only [Function.iterate_zero, id_eq] at hout ⊢
    simp [path_loop, hout]
  | succ k ih =>
    intro w hgood hout
    have hg : Good map w := hgood 0 (by omega)
    have hin : inside map w.curr = true := (inside_iff map _ _).2 hg.1
    obtain ⟨_, _, _, _, _, _, _, hstep, _⟩ := advance_good map t w hwf ht hg
    unfold path_loop
    rw [if_pos hin, hstep]
    simp only [Function.iterate_succ_apply]
    apply ih
    · intro m hm
      have := hgood (m + 1) (by omega)
      rwa [Function.iterate_succ_apply] at this
    · rwa [Function.iterate_succ_apply] at hout

/-- An entry accepted by `start_border` comes with a passable border. -/
theorem start_border_open (map : Map) (r c b : Int) (h : start_border map r c = .ok b)
    (hb : b ≠ -1) : isborder map r c b = .ok false := by
  unfold start_border at h
  repeat' split at h
  all_goals first
    | (cases h; first | assumption | exact absurd rfl hb)
    | cases h

theorem exit_cell_on_edge (map : Map) (r c b : Int) (hin : InGrid map r c)
    (hb : b = 0 ∨ b = 1 ∨ b = 2)
    (hout : inside map (move_cell (r, c) b (updown (r, c))) = false) :
    r = 1 ∨ r = map.rows ∨ c = 1 ∨ c = map.cols := by
  obtain ⟨i1, i2, i3, i4⟩ := hin
  have hno : ¬ InGrid map (move_cell (r, c) b (updown (r, c))).1
      (move_cell (r, c) b (updown (r, c))).2 := by
    intro h
    rw [(inside_iff map _ _).2 h] at hout
    cases hout
  unfold InGrid at hno
  rcases hb with rfl | rfl | rfl
  · rw [move_cell_zero] at hno
    split_ifs at hno <;> simp only at hno <;> omega
  · rw [move_cell_one] at hno
    simp only at hno
    omega
  · rw [move_cell_two] at hno
    simp only at hno
    omega

/-- Termination of `pathfinding` for one rule: a consistent grid entered through a
passable perimeter border is left after finitely many passes, with status 0, and the
last printed cell lies on the edge of the grid. -/
theorem pathfinding_terminates (map : Map) (r c b hand_rule : Int) (hwf : map.WF)
    (hcons : Consistent map) (hin : InGrid map r c)
    (hstart : start_border map r c = .ok b) (hb : b ≠ -1)
    (hper : OnPerimeter map (r, c) b) :
    ∃ fuel out last, pathfinding 3 fuel map (r, c) hand_rule = .ok (0, out) ∧
      out.getLast? = some last ∧
      (last.1 = 1 ∨ last.1 = map.rows ∨ last.2 = 1 ∨ last.2 = map.cols) := by
  have ht : (if hand_rule = 0 then (-1 : Int) else 1) = 1 ∨
      (if hand_rule = 0 then (-1 : Int) else 1) = -1 := by
    split <;> simp
  have hloop : ∀ fuel, pathfinding 3 fuel map (r, c) hand_rule =
      match path_loop 3 map (if hand_rule = 0 then (-1 : Int) else 1) fuel ⟨(r, c), b, []⟩ with
      | .ok w => .ok (0, w.out)
      | .fault => .fault
      | .diverge => .diverge := by
    intro fuel
    unfold pathfinding
    simp only [hstart, if_neg hb]
  generalize (if hand_rule = 0 then (-1 : Int) else 1) = t at ht hloop
  have hg : Good map ⟨(r, c), b, []⟩ := ⟨hin, start_border_open map r c b hstart hb⟩
  have hex := walk_leaves_grid map t ⟨(r, c), b, []⟩ hwf hcons ht hg hper
  have hn := Nat.find_spec hex
  have hmin : ∀ m, m < Nat.find hex →
      inside map ((advance map t)^[m] ⟨(r, c), b, []⟩).curr = true := by
    intro m hm
    have := Nat.find_min hex hm
    simpa using this
  generalize Nat.find hex = n at hn hmin
  have hgood : ∀ m, m < n → Good map ((advance map t)^[m] ⟨(r, c), b, []⟩) :=
    fun m hm => iterates_good map t _ hwf hcons ht hg m (fun k hk => hmin k (by omega)) m le_rfl
  have hrun := path_loop_follows map t hwf ht n _ hgood hn
  cases n with
  | zero =>
    simp only [Function.iterate_zero, id_eq] at hn
    rw [(inside_iff map r c).2 hin] at hn
    cases hn
  | succ k =>
    have hgk := hgood k (by omega)
    rw [Function.iterate_succ_apply'] at hrun hn
    generalize (advance map t)^[k] ⟨(r, c), b, []⟩ = wk at hgk hrun hn
    obtain ⟨_, b1, _, hb1, _, _, _, _, ha⟩ := advance_good map t wk hwf ht hgk
    refine ⟨k + 1, (advance map t wk).out, wk.curr, ?_, ?_, ?_⟩
    · rw [hloop, hrun]
    · rw [ha]
      simp
    · rw [ha] at hn
      exact exit_cell_on_edge map _ _ b1 hgk.1 hb1 hn

/-- In the closed 2 x 3 grid a pass of the loop body from `(1,2)` or `(2,2)` with current
border 0 either has no result or leads to the other of the two cells, again with
border 0. -/
theorem closed_grid_step (rotFuel : Nat) (t : Int) (ht : t = 1 ∨ t = -1)
    (out : List (Int × Int)) :
    (path_step rotFuel grid_closed t ⟨(1, 2), 0, out⟩ = .diverge ∨
      path_step rotFuel grid_closed t ⟨(1, 2), 0, out⟩ = .ok ⟨(2, 2), 0, out ++ [(1, 2)]⟩) ∧
    (path_step rotFuel grid_closed t ⟨(2, 2), 0, out⟩ = .diverge ∨
      path_step rotFuel grid_closed t ⟨(2, 2), 0, out⟩ = .ok ⟨(1, 2), 0, out ++ [(2, 2)]⟩) := by
  have hrot : ∀ (p : Int × Int) (s : Int), (p = (1, 2) ∨ p = (2, 2)) → (s = 1 ∨ s = -1) →
      rotation grid_closed p s rotFuel 0 = .diverge ∨
      rotation grid_closed p s rotFuel 0 = .ok 0 := by
    intro p s hp hs
    rcases hp with rfl | rfl <;> rcases hs with rfl | rfl <;>
      rcases rotFuel with _ | _ | _ | k <;>
      first
        | (left; rfl)
        | (right; rfl)
  have h12 : turn t (1, 2) = 1 ∨ turn t (1, 2) = -1 := turn_sign t _ ht
  have h22 : turn t (2, 2) = 1 ∨ turn t (2, 2) = -1 := turn_sign t _ ht
  constructor
  · rw [path_step_eq]
    unfold cell_movement
    rcases hrot (1, 2) (turn t (1, 2)) (Or.inl rfl) h12 with h | h
    · left; simp only [h]
    · right; simp only [h]; rfl
  · rw [path_step_eq]
    unfold cell_movement
    rcases hrot (2, 2) (turn t (2, 2)) (Or.inr rfl) h22 with h | h
    · left; simp only [h]
    · right; simp only [h]; rfl

theorem closed_grid_loops (rotFuel : Nat) (t : Int) (ht : t = 1 ∨ t = -1) (fuel : Nat) :
    ∀ out : List (Int × Int),
      path_loop rotFuel grid_closed t fuel ⟨(1, 2), 0, out⟩ = .diverge ∧
      path_loop rotFuel grid_closed t fuel ⟨(2, 2), 0, out⟩ = .diverge := by
  have i1 : inside grid_closed (1, 2) = true := by decide
  have i2 : inside grid_closed (2, 2) = true := by decide
  induction fuel with
  | zero =>
    intro out
    simp [path_loop, i1, i2]
  | succ k ih =>
    intro out
    obtain ⟨s1, s2⟩ := closed_grid_step rotFuel t ht out
    constructor
    · unfold path_loop
      simp only [i1, if_true]
      rcases s1 with h | h
      · rw [h]
      · rw [h]; exact (ih _).2
    · unfold path_loop
      simp only [i2, if_true]
      rcases s2 with h | h
      · rw [h]
      · rw [h]; exact (ih _).1

/-! ## Claim on termination -/

/-- C9: the code breaks the termination claim.  The 2 x 3 grid whose only open border is
the one shared by `(1,2)` and `(2,2)` is consistent, yet `start_border` accepts the entry
`(1,2)` through border 0, which is that inner border (the orientation of the triangle is
not looked at), and under either rule the traversal never leaves the grid, whatever the
fuel. -/
theorem traversal_loops_in_closed_grid :
    grid_closed.WF ∧ Consistent grid_closed ∧ InGrid grid_closed 1 2 ∧
    start_border grid_closed 1 2 = .ok 0 ∧
    (∀ rotFuel fuel, pathfinding rotFuel fuel grid_closed (1, 2) 1 = .diverge) ∧
    (∀ rotFuel fuel, pathfinding rotFuel fuel grid_closed (1, 2) 0 = .diverge) := by
  have hs : start_border grid_closed 1 2 = .ok 0 := by decide
  refine ⟨by decide, by decide, by decide, hs, ?_, ?_⟩
  · intro rotFuel fuel
    have h := (closed_grid_loops rotFuel 1 (Or.inl rfl) fuel []).1
    simp only [pathfinding, hs]
    simp [h]
  · intro rotFuel fuel
    have h := (closed_grid_loops rotFuel (-1) (Or.inr rfl) fuel []).1
    simp only [pathfinding, hs]
    simp [h]

/-- Termination wherever `start_border` returns an outer border: in a loaded grid with
consistent shared borders, an in-grid entry that `start_border` accepts through a border
on the outer perimeter (crossing it leaves the grid) is traversed to the end under the
right-hand rule and under the left-hand rule:
`pathfinding` returns 0 after finitely many passes and the last printed cell lies in
row 1, row `rows`, column 1 or column `cols`. -/
theorem traversal_terminates_from_perimeter (map : Map) (r c b : Int) (hwf : map.WF)
    (hcons : Consistent map) (hin : InGrid map r c)
    (hstart : start_border map r c = .ok b) (hb : b ≠ -1)
    (hper : OnPerimeter map (r, c) b) :
    (∃ fuel out last, pathfinding 3 fuel map (r, c) 1 = .ok (0, out) ∧
      out.getLast? = some last ∧
      (last.1 = 1 ∨ last.1 = map.rows ∨ last.2 = 1 ∨ last.2 = map.cols)) ∧
    (∃ fuel out last, pathfinding 3 fuel map (r, c) 0 = .ok (0, out) ∧
      out.getLast? = some last ∧
      (last.1 = 1 ∨ last.1 = map.rows ∨ last.2 = 1 ∨ last.2 = map.cols)) :=
  ⟨pathfinding_terminates map r c b 1 hwf hcons hin hstart hb hper,
    pathfinding_terminates map r c b 0 hwf hcons hin hstart hb hper⟩

theorem traversal_terminates_from_perimeter_witness :
    grid_mixed.WF ∧ Consistent grid_mixed ∧ InGrid grid_mixed 2 2 ∧
    start_border grid_mixed 2 2 = .ok 1 ∧ (1 : Int) ≠ -1 ∧
    OnPerimeter grid_mixed (2, 2) 1 ∧
    ((∃ fuel out last, pathfinding 3 fuel grid_mixed (2, 2) 1 = .ok (0, out) ∧
      out.getLast? = some last ∧
      (last.1 = 1 ∨ last.1 = grid_mixed.rows ∨ last.2 = 1 ∨ last.2 = grid_mixed.cols)) ∧
    (∃ fuel out last, pathfinding 3 fuel grid_mixed (2, 2) 0 = .ok (0, out) ∧
      out.getLast? = some last ∧
      (last.1 = 1 ∨ last.1 = grid_mixed.rows ∨ last.2 = 1 ∨ last.2 = grid_mixed.cols))) :=
  ⟨by decide, by decide, by decide, by decide, by decide, by decide,
    traversal_terminates_from_perimeter grid_mixed 2 2 1 (by decide) (by decide) (by decide)
      (by decide) (by decide) (by decide)⟩

/-! ## Fuel -/

theorem rotation_mono (map : Map) (curr : Int × Int) (s : Int) (n : Nat) :
    ∀ (d b : Int), rotation map curr s n d = .ok b →
      ∀ k, rotation map curr s (n + k) d = .ok b := by
  induction n with
  | zero => intro d b h; cases h
  | succ m ih =>
    intro d b h k
    rw [Nat.add_right_comm]
    unfold rotation at h ⊢
    simp only [] at h ⊢
    split at h
    · exact h
    · exact ih _ _ h k
    · cases h
    · cases h

theorem path_step_mono (map : Map) (t : Int) (n : Nat) (w w1 : Walk)
    (h : path_step n map t w = .ok w1) (k : Nat) : path_step (n + k) map t w = .ok w1 := by
  rw [path_step_eq] at h ⊢
  unfold cell_movement at h ⊢
  cases e : rotation map w.curr (turn t w.curr) n w.direction with
  | ok b =>
    rw [rotation_mono map _ _ n _ b e k]
    rw [e] at h
    exact h
  | fault => rw [e] at h; cases h
  | diverge => rw [e] at h; cases h

theorem path_loop_mono (map : Map) (t : Int) (rf k : Nat) (n : Nat) :
    ∀ (w w1 : Walk), path_loop rf map t n w = .ok w1 →
      ∀ j, path_loop (rf + k) map t (n + j) w = .ok w1 := by
  induction n with
  | zero =>
    intro w w1 h j
    unfold path_loop at h
    split at h
    · cases h
    · rename_i hi
      cases j <;> simp [path_loop, hi] <;> exact Exec.ok.inj h
  | succ m ih =>
    intro w w1 h j
    rw [Nat.add_right_comm]
    unfold path_loop at h ⊢
    split at h
    · rename_i hi
      rw [if_pos hi]
      cases e : path_step rf map t w with
      | ok w2 =>
        rw [path_step_mono map t rf w w2 e k]
        rw [e] at h
        exact ih _ _ h j
      | fault => rw [e] at h; cases h
      | diverge => rw [e] at h; cases h
    · rename_i hi
      rw [if_neg hi]
      exact h

/-- A run of `pathfinding` that ends keeps its result when more fuel is given. -/
theorem pathfinding_mono (map : Map) (curr : Int × Int) (hand_rule : Int) (rf n : Nat)
    (res : Int × List (Int × Int))
    (h : pathfinding rf n map curr hand_rule = .ok res) (k j : Nat) :
    pathfinding (rf + k) (n + j) map curr hand_rule = .ok res := by
  unfold pathfinding at h ⊢
  cases e : start_border map curr.1 curr.2 with
  | ok b =>
    rw [e] at h
    simp only [] at h ⊢
    by_cases hb : b = -1
    · rw [if_pos hb] at h ⊢
      exact h
    · rw [if_neg hb] at h ⊢
      cases e2 : path_loop rf map (if hand_rule = 0 then -1 else 1) n
          { curr := curr, direction := b, out := [] } with
      | ok w =>
        rw [path_loop_mono map _ rf k n _ w e2 j]
        rw [e2] at h
        exact h
      | fault => rw [e2] at h; cases h
      | diverge => rw [e2] at h; cases h
  | fault => rw [e] at h; cases h
  | diverge => rw [e] at h; cases h

/-! ## Scenario claims -/

/-- C11: on the 1 x 1 grid with code 3 (horizontal border open, right and left closed)
the traversal entered at `(1,1)` prints exactly `(1,1)` under either rule and ends with
status 0, because the vertical move leads to `(0,1)`, outside the grid. -/
theorem single_cell_traversal :
    grid_one_cell.WF ∧
    (isborder grid_one_cell 1 1 0 = .ok false ∧ isborder grid_one_cell 1 1 1 = .ok true ∧
      isborder grid_one_cell 1 1 2 = .ok true) ∧
    start_border grid_one_cell 1 1 = .ok 0 ∧
    move_cell (1, 1) 0 (updown (1, 1)) = (0, 1) ∧
    inside grid_one_cell (0, 1) = false ∧
    (∀ k j, pathfinding (3 + k) (1 + j) grid_one_cell (1, 1) 1 = .ok (0, [(1, 1)])) ∧
    (∀ k j, pathfinding (3 + k) (1 + j) grid_one_cell (1, 1) 0 = .ok (0, [(1, 1)])) := by
  refine ⟨by decide, by decide, by decide, by decide, by decide, ?_, ?_⟩
  · intro k j
    exact pathfinding_mono grid_one_cell (1, 1) 1 3 1 _ (by decide) k j
  · intro k j
    exact pathfinding_mono grid_one_cell (1, 1) 0 3 1 _ (by decide) k j

/-- C12: on the 2 x 2 corridor grid with row-major codes 4, 2, 4, 2 the right-hand
traversal entered at `(1,1)` prints exactly `(1,1), (1,2), (2,2), (2,1)` in that order
and ends with status 0. -/
theorem corridor_traversal :
    grid_corridor.WF ∧ Consistent grid_corridor ∧
    start_border grid_corridor 1 1 = .ok 2 ∧
    (∀ k j, pathfinding (3 + k) (4 + j) grid_corridor (1, 1) 1 =
      .ok (0, [(1, 1), (1, 2), (2, 2), (2, 1)])) := by
  refine ⟨by decide, by decide, by decide, ?_⟩
  intro k j
  exact pathfinding_mono grid_corridor (1, 1) 1 3 4 _ (by decide) k j

/-! ## Dead-end cells -/

theorem pathfinding_eq_loop (map : Map) (curr : Int × Int) (hand_rule b : Int)
    (rotFuel fuel : Nat) (hs : start_border map curr.1 curr.2 = .ok b) (hb : b ≠ -1) :
    pathfinding rotFuel fuel map curr hand_rule =
      match path_loop rotFuel map (if hand_rule = 0 then -1 else 1) fuel ⟨curr, b, []⟩ with
      | .ok w => .ok (0, w.out)
      | .fault => .fault
      | .diverge => .diverge := by
  unfold pathfinding
  simp only [hs, if_neg hb]

theorem path_loop_zero_inside (map : Map) (t : Int) (rotFuel : Nat) (w : Walk)
    (hi : inside map w.curr = true) : path_loop rotFuel map t 0 w = .diverge := by
  unfold path_loop
  rw [if_pos hi]

theorem tmod_step_index (d s : Int) (hd : d = 0 ∨ d = 1 ∨ d = 2) (hs : s = 1 ∨ s = -1) :
    Int.tmod (d + s + 3) 3 = 0 ∨ Int.tmod (d + s + 3) 3 = 1 ∨ Int.tmod (d + s + 3) 3 = 2 := by
  rcases hd with rfl | rfl | rfl <;> rcases hs with rfl | rfl <;> decide

/-- In a cell whose three borders are walls the rotation loop uses up any fuel. -/
theorem rotation_all_closed (map : Map) (curr : Int × Int) (s : Int) (hs : s = 1 ∨ s = -1)
    (h0 : isborder map curr.1 curr.2 0 = .ok true)
    (h1 : isborder map curr.1 curr.2 1 = .ok true)
    (h2 : isborder map curr.1 curr.2 2 = .ok true) (n : Nat) :
    ∀ d : Int, (d = 0 ∨ d = 1 ∨ d = 2) → rotation map curr s n d = .diverge := by
  induction n with
  | zero => intro d _; rfl
  | succ m ih =>
    intro d hd
    have hi := tmod_step_index d s hd hs
    unfold rotation
    simp only []
    have hw : isborder map curr.1 curr.2 (Int.tmod (d + s + 3) 3) = .ok true := by
      rcases hi with e | e | e <;> rw [e] <;> assumption
    rw [hw]
    exact ih _ hi

/-- From a state in an in-grid cell whose three borders are walls, neither the loop body
nor the loop of `pathfinding` has a result, whatever the fuel. -/
theorem dead_end_diverges (map : Map) (t : Int) (w : Walk) (ht : t = 1 ∨ t = -1)
    (hin : InGrid map w.curr.1 w.curr.2)
    (hd : w.direction = 0 ∨ w.direction = 1 ∨ w.direction = 2)
    (h0 : isborder map w.curr.1 w.curr.2 0 = .ok true)
    (h1 : isborder map w.curr.1 w.curr.2 1 = .ok true)
    (h2 : isborder map w.curr.1 w.curr.2 2 = .ok true) (rotFuel fuel : Nat) :
    rotation map w.curr (turn t w.curr) rotFuel w.direction = .diverge ∧
    path_step rotFuel map t w = .diverge ∧
    path_loop rotFuel map t fuel w = .diverge := by
  have hr := rotation_all_closed map w.curr (turn t w.curr) (turn_sign t _ ht) h0 h1 h2
    rotFuel w.direction hd
  have hstep : path_step rotFuel map t w = .diverge := by
    rw [path_step_eq]
    unfold cell_movement
    rw [hr]
  have hi : inside map w.curr = true := (inside_iff map _ _).2 hin
  refine ⟨hr, hstep, ?_⟩
  cases fuel with
  | zero => exact path_loop_zero_inside _ _ _ _ hi
  | succ n =>
    unfold path_loop
    rw [if_pos hi, hstep]

/-- C13 as stated fails: in the 1 x 2 grid with codes 4, 7 entered at `(1,1)` the
right-hand traversal steps into `(1,2)`, whose three borders are walls, and from there
`pathfinding` has no result for any fuel: it hangs, no error is reported. -/
theorem dead_end_hangs_in_grid :
    grid_dead_end.WF ∧ start_border grid_dead_end 1 1 = .ok 2 ∧
    path_step 3 grid_dead_end 1 ⟨(1, 1), 2, []⟩ = .ok ⟨(1, 2), 2, [(1, 1)]⟩ ∧
    (isborder grid_dead_end 1 2 0 = .ok true ∧ isborder grid_dead_end 1 2 1 = .ok true ∧
      isborder grid_dead_end 1 2 2 = .ok true) ∧
    (∀ rotFuel fuel, pathfinding rotFuel fuel grid_dead_end (1, 1) 1 = .diverge) := by
  have hs : start_border grid_dead_end 1 1 = .ok 2 := by decide
  refine ⟨by decide, hs, by decide, by decide, ?_⟩
  intro rotFuel fuel
  have hi : inside grid_dead_end (1, 1) = true := by decide
  have hloop : path_loop rotFuel grid_dead_end 1 fuel ⟨(1, 1), 2, []⟩ = .diverge := by
    cases fuel with
    | zero => exact path_loop_zero_inside _ _ _ _ hi
    | succ n =>
      unfold path_loop
      rw [if_pos hi]
      cases rotFuel with
      | zero => rfl
      | succ m =>
        have hstep : path_step (m + 1) grid_dead_end 1 ⟨(1, 1), 2, []⟩ =
            .ok ⟨(1, 2), 2, [(1, 1)]⟩ := by
          have := path_step_mono grid_dead_end 1 1 ⟨(1, 1), 2, []⟩ ⟨(1, 2), 2, [(1, 1)]⟩
            (by decide) m
          rwa [Nat.add_comm] at this
        rw [hstep]
        exact (dead_end_diverges grid_dead_end 1 ⟨(1, 2), 2, [(1, 1)]⟩ (Or.inl rfl)
          (by decide) (by decide) (by decide) (by decide) (by decide) (m + 1) n).2.2
  rw [pathfinding_eq_loop grid_dead_end (1, 1) 1 2 rotFuel fuel hs (by decide)]
  have e : (if (1 : Int) = 0 then (-1 : Int) else 1) = 1 := by decide
  rw [e, hloop]

/-- C13, amended: when the traversal stands in an in-grid cell whose three local borders
are all closed, the rotation search of `cell_movement` never ends and `pathfinding`
hangs there; no error is flagged. -/
theorem dead_end_cell_hangs (map : Map) (t : Int) (w : Walk) (ht : t = 1 ∨ t = -1)
    (hin : InGrid map w.curr.1 w.curr.2)
    (hd : w.direction = 0 ∨ w.direction = 1 ∨ w.direction = 2)
    (h0 : isborder map w.curr.1 w.curr.2 0 = .ok true)
    (h1 : isborder map w.curr.1 w.curr.2 1 = .ok true)
    (h2 : isborder map w.curr.1 w.curr.2 2 = .ok true) :
    ∀ rotFuel fuel,
      rotation map w.curr (turn t w.curr) rotFuel w.direction = .diverge ∧
      path_step rotFuel map t w = .diverge ∧
      path_loop rotFuel map t fuel w = .diverge :=
  fun rotFuel fuel => dead_end_diverges map t w ht hin hd h0 h1 h2 rotFuel fuel

theorem dead_end_cell_hangs_witness :
    ((1 : Int) = 1 ∨ (1 : Int) = -1) ∧ InGrid grid_dead_end 1 2 ∧
    ((2 : Int) = 0 ∨ (2 : Int) = 1 ∨ (2 : Int) = 2) ∧
    isborder grid_dead_end 1 2 0 = .ok true ∧ isborder grid_dead_end 1 2 1 = .ok true ∧
    isborder grid_dead_end 1 2 2 = .ok true ∧
    ∀ rotFuel fuel,
      rotation grid_dead_end (1, 2) (turn 1 (1, 2)) rotFuel 2 = .diverge ∧
      path_step rotFuel grid_dead_end 1 ⟨(1, 2), 2, [(1, 1)]⟩ = .diverge ∧
      path_loop rotFuel grid_dead_end 1 fuel ⟨(1, 2), 2, [(1, 1)]⟩ = .diverge :=
  ⟨by decide, by decide, by decide, by decide, by decide, by decide,
    dead_end_cell_hangs grid_dead_end 1 ⟨(1, 2), 2, [(1, 1)]⟩ (by decide) (by decide)
      (by decide) (by decide) (by decide) (by decide)⟩

/-! ## Reads outside the grid -/

theorem isborder_of_cell_value (map : Map) (r c r1 c1 b : Int)
    (h : cell_value map r c = cell_value map r1 c1) :
    isborder map r c b = isborder map r1 c1 b := by
  unfold isborder read_cell
  rw [h]

theorem isborder_fault_of_index (map : Map) (r c b : Int)
    (h : cell_value map r c < 0 ∨ (map.cells.length : Int) ≤ cell_value map r c) :
    isborder map r c b = .fault := by
  unfold isborder read_cell
  by_cases hneg : cell_value map r c < 0
  · rw [if_pos hneg]
  · rw [if_neg hneg]
    have hlen : map.cells.length ≤ (cell_value map r c).toNat := by omega
    rw [List.getElem?_eq_none hlen]

theorem index_cell_inGrid (map : Map) (i : Int) (hwf : map.WF) (h0 : 0 ≤ i)
    (h1 : i < map.rows * map.cols) :
    InGrid map (i / map.cols + 1) (i % map.cols + 1) ∧
    cell_value map (i / map.cols + 1) (i % map.cols + 1) = i := by
  obtain ⟨hr, hc, _⟩ := hwf
  have hcpos : 0 < map.cols := by omega
  have q0 : 0 ≤ i / map.cols := Int.ediv_nonneg h0 (by omega)
  have q1 : i / map.cols < map.rows := Int.ediv_lt_of_lt_mul hcpos h1
  have m0 : 0 ≤ i % map.cols := Int.emod_nonneg _ (by omega)
  have m1 : i % map.cols < map.cols := Int.emod_lt_of_pos _ hcpos
  refine ⟨⟨by omega, by omega, by omega, by omega⟩, ?_⟩
  unfold cell_value
  have := Int.ediv_add_emod i map.cols
  have e : (i / map.cols + 1 - 1) * map.cols = map.cols * (i / map.cols) := by ring
  rw [e]
  omega

/-- C14 as stated fails: in the 2 x 2 grid with codes 0, 0, 7, 0 the pair `(1, 3)` is
outside the grid (column `cols + 1`), yet `isborder` returns a flag for it, namely the
flag of the in-grid cell `(2, 1)`. -/
theorem isborder_outside_returns_flag :
    grid_shifted.WF ∧ ¬ InGrid grid_shifted 1 3 ∧
    isborder grid_shifted 1 3 0 = .ok true ∧
    isborder grid_shifted 2 1 0 = .ok true ∧
    isborder grid_shifted 1 2 0 = .ok false ∧
    read_cell grid_shifted 1 3 = read_cell grid_shifted 2 1 := by
  decide

/-- C14, amended: `isborder` makes no range check on `(r, c)`.  It reads the index
`(r-1)*cols + c - 1`: when that index lies outside `[0, rows*cols)` the read has no
defined value, and when it lies inside, `isborder` returns the flag of the in-grid cell
stored at that index; for `c = cols + 1` with `1 ≤ r < rows` that is the cell
`(r + 1, 1)`. -/
theorem isborder_reads_by_index (map : Map) (r c b : Int) (hwf : map.WF) :
    (cell_value map r c < 0 ∨ map.rows * map.cols ≤ cell_value map r c →
      isborder map r c b = .fault) ∧
    (0 ≤ cell_value map r c ∧ cell_value map r c < map.rows * map.cols →
      InGrid map (cell_value map r c / map.cols + 1) (cell_value map r c % map.cols + 1) ∧
      isborder map r c b =
        isborder map (cell_value map r c / map.cols + 1)
          (cell_value map r c % map.cols + 1) b) ∧
    (1 ≤ r ∧ r < map.rows → c = map.cols + 1 →
      InGrid map (r + 1) 1 ∧ isborder map r c b = isborder map (r + 1) 1 b) := by
  refine ⟨?_, ?_, ?_⟩
  · intro h
    apply isborder_fault_of_index
    rw [hwf.2.2]
    exact h
  · rintro ⟨h0, h1⟩
    obtain ⟨hin, hcv⟩ := index_cell_inGrid map _ hwf h0 h1
    exact ⟨hin, isborder_of_cell_value map _ _ _ _ b hcv.symm⟩
  · rintro ⟨h0, h1⟩ hc
    subst hc
    refine ⟨⟨by omega, by omega, le_refl _, hwf.2.1⟩, ?_⟩
    apply isborder_of_cell_value
    unfold cell_value
    ring

theorem isborder_reads_by_index_witness :
    grid_shifted.WF ∧
    ((cell_value grid_shifted 1 3 < 0 ∨
        grid_shifted.rows * grid_shifted.cols ≤ cell_value grid_shifted 1 3 →
      isborder grid_shifted 1 3 0 = .fault) ∧
    (0 ≤ cell_value grid_shifted 1 3 ∧
        cell_value grid_shifted 1 3 < grid_shifted.rows * grid_shifted.cols →
      InGrid grid_shifted (cell_value grid_shifted 1 3 / grid_shifted.cols + 1)
        (cell_value grid_shifted 1 3 % grid_shifted.cols + 1) ∧
      isborder grid_shifted 1 3 0 =
        isborder grid_shifted (cell_value grid_shifted 1 3 / grid_shifted.cols + 1)
          (cell_value grid_shifted 1 3 % grid_shifted.cols + 1) 0) ∧
    ((1 : Int) ≤ 1 ∧ (1 : Int) < grid_shifted.rows → (3 : Int) = grid_shifted.cols + 1 →
      InGrid grid_shifted (1 + 1) 1 ∧
        isborder grid_shifted 1 3 0 = isborder grid_shifted (1 + 1) 1 0)) :=
  ⟨by decide, isborder_reads_by_index grid_shifted 1 3 0 (by decide)⟩

/-! ## Orientation -/

/-- C15: for `r, c ≥ 1` the orientation test is `(r + c) mod 2 = 1`, and it alternates
between horizontal and between vertical neighbours. -/
theorem orientation_alternates (r c : Int) (hr : 1 ≤ r) (hc : 1 ≤ c) :
    isUpward r c = decide ((r + c) % 2 = 1) ∧
    isUpward r c ≠ isUpward r (c + 1) ∧
    isUpward r c ≠ isUpward (r + 1) c := by
  have e0 := triangle_rotation_eq r c (by omega)
  have e1 := triangle_rotation_eq r (c + 1) (by omega)
  have e2 := triangle_rotation_eq (r + 1) c (by omega)
  unfold isUpward
  rw [e0, e1, e2]
  refine ⟨rfl, ?_, ?_⟩
  · by_cases h : (r + c) % 2 = 1
    · have h2 : ¬ (r + (c + 1)) % 2 = 1 := by omega
      simp [h, h2]
    · have h2 : (r + (c + 1)) % 2 = 1 := by omega
      simp [h, h2]
  · by_cases h : (r + c) % 2 = 1
    · have h2 : ¬ (r + 1 + c) % 2 = 1 := by omega
      simp [h, h2]
    · have h2 : (r + 1 + c) % 2 = 1 := by omega
      simp [h, h2]

theorem orientation_alternates_witness :
    (1 : Int) ≤ 2 ∧ (1 : Int) ≤ 3 ∧
    (isUpward 2 3 = decide (((2 : Int) + 3) % 2 = 1) ∧
     isUpward 2 3 ≠ isUpward 2 (3 + 1) ∧
     isUpward 2 3 ≠ isUpward (2 + 1) 3) :=
  ⟨by decide, by decide, orientation_alternates 2 3 (by decide) (by decide)⟩

/-! ## A traversal that never exits -/

theorem path_step_of_rotation (rotFuel : Nat) (map : Map) (t : Int) (w : Walk) (b : Int)
    (h : rotation map w.curr (turn t w.curr) rotFuel w.direction = .ok b) :
    path_step rotFuel map t w =
      .ok ⟨move_cell w.curr b (updown w.curr), next_direction b, w.out ++ [w.curr]⟩ := by
  rw [path_step_eq]
  unfold cell_movement
  rw [h]

theorem path_step_of_rotation_diverge (rotFuel : Nat) (map : Map) (t : Int) (w : Walk)
    (h : rotation map w.curr (turn t w.curr) rotFuel w.direction = .diverge) :
    path_step rotFuel map t w = .diverge := by
  rw [path_step_eq]
  unfold cell_movement
  rw [h]

/-- In the bouncing grid, under the right-hand rule, a pass of the loop body from
`(1,2)` (current border 0 or 2) leads to `(2,2)` with border 0, and a pass from `(2,2)`
with border 0 leads back to `(1,2)` with border 0; with too little rotation fuel the
pass has no result. -/
theorem bounce_step (rotFuel : Nat) (out : List (Int × Int)) :
    (path_step rotFuel grid_bounce 1 ⟨(1, 2), 2, out⟩ = .diverge ∨
      path_step rotFuel grid_bounce 1 ⟨(1, 2), 2, out⟩ = .ok ⟨(2, 2), 0, out ++ [(1, 2)]⟩) ∧
    (path_step rotFuel grid_bounce 1 ⟨(1, 2), 0, out⟩ = .diverge ∨
      path_step rotFuel grid_bounce 1 ⟨(1, 2), 0, out⟩ = .ok ⟨(2, 2), 0, out ++ [(1, 2)]⟩) ∧
    (path_step rotFuel grid_bounce 1 ⟨(2, 2), 0, out⟩ = .diverge ∨
      path_step rotFuel grid_bounce 1 ⟨(2, 2), 0, out⟩ = .ok ⟨(1, 2), 0, out ++ [(2, 2)]⟩) := by
  have hrot : ∀ (p : Int × Int) (d : Int),
      (p = (1, 2) ∧ (d = 2 ∨ d = 0)) ∨ (p = (2, 2) ∧ d = 0) →
      rotation grid_bounce p (turn 1 p) rotFuel d = .diverge ∨
      rotation grid_bounce p (turn 1 p) rotFuel d = .ok 0 := by
    intro p d hp
    rcases hp with ⟨rfl, rfl | rfl⟩ | ⟨rfl, rfl⟩ <;>
      rcases rotFuel with _ | _ | _ | k <;>
      first
        | (left; rfl)
        | (right; rfl)
  refine ⟨?_, ?_, ?_⟩
  · rcases hrot (1, 2) 2 (Or.inl ⟨rfl, Or.inl rfl⟩) with h | h
    · exact Or.inl (path_step_of_rotation_diverge _ _ _ ⟨(1, 2), 2, out⟩ h)
    · exact Or.inr (path_step_of_rotation _ _ _ ⟨(1, 2), 2, out⟩ 0 h)
  · rcases hrot (1, 2) 0 (Or.inl ⟨rfl, Or.inr rfl⟩) with h | h
    · exact Or.inl (path_step_of_rotation_diverge _ _ _ ⟨(1, 2), 0, out⟩ h)
    · exact Or.inr (path_step_of_rotation _ _ _ ⟨(1, 2), 0, out⟩ 0 h)
  · rcases hrot (2, 2) 0 (Or.inr ⟨rfl, rfl⟩) with h | h
    · exact Or.inl (path_step_of_rotation_diverge _ _ _ ⟨(2, 2), 0, out⟩ h)
    · exact Or.inr (path_step_of_rotation _ _ _ ⟨(2, 2), 0, out⟩ 0 h)

theorem bounce_step_three (out : List (Int × Int)) :
    path_step 3 grid_bounce 1 ⟨(1, 2), 2, out⟩ = .ok ⟨(2, 2), 0, out ++ [(1, 2)]⟩ ∧
    path_step 3 grid_bounce 1 ⟨(1, 2), 0, out⟩ = .ok ⟨(2, 2), 0, out ++ [(1, 2)]⟩ ∧
    path_step 3 grid_bounce 1 ⟨(2, 2), 0, out⟩ = .ok ⟨(1, 2), 0, out ++ [(2, 2)]⟩ := by
  have r1 : rotation grid_bounce (1, 2) (turn 1 (1, 2)) 3 2 = .ok 0 := by decide
  have r2 : rotation grid_bounce (1, 2) (turn 1 (1, 2)) 3 0 = .ok 0 := by decide
  have r3 : rotation grid_bounce (2, 2) (turn 1 (2, 2)) 3 0 = .ok 0 := by decide
  exact ⟨path_step_of_rotation 3 grid_bounce 1 ⟨(1, 2), 2, out⟩ 0 r1,
    path_step_of_rotation 3 grid_bounce 1 ⟨(1, 2), 0, out⟩ 0 r2,
    path_step_of_rotation 3 grid_bounce 1 ⟨(2, 2), 0, out⟩ 0 r3⟩

theorem bounce_loops (rotFuel fuel : Nat) :
    ∀ out : List (Int × Int),
      path_loop rotFuel grid_bounce 1 fuel ⟨(1, 2), 2, out⟩ = .diverge ∧
      path_loop rotFuel grid_bounce 1 fuel ⟨(1, 2), 0, out⟩ = .diverge ∧
      path_loop rotFuel grid_bounce 1 fuel ⟨(2, 2), 0, out⟩ = .diverge := by
  have i1 : inside grid_bounce (1, 2) = true := by decide
  have i2 : inside grid_bounce (2, 2) = true := by decide
  induction fuel with
  | zero =>
    intro out
    exact ⟨path_loop_zero_inside _ _ _ ⟨(1, 2), 2, out⟩ i1,
      path_loop_zero_inside _ _ _ ⟨(1, 2), 0, out⟩ i1,
      path_loop_zero_inside _ _ _ ⟨(2, 2), 0, out⟩ i2⟩
  | succ k ih =>
    intro out
    obtain ⟨s1, s2, s3⟩ := bounce_step rotFuel out
    refine ⟨?_, ?_, ?_⟩
    · unfold path_loop
      rw [if_pos i1]
      rcases s1 with h | h
      · rw [h]
      · rw [h]; exact (ih _).2.2
    · unfold path_loop
      rw [if_pos i1]
      rcases s2 with h | h
      · rw [h]
      · rw [h]; exact (ih _).2.2
    · unfold path_loop
      rw [if_pos i2]
      rcases s3 with h | h
      · rw [h]
      · rw [h]; exact (ih _).2.1

theorem bounce_pathfinding_diverges (rotFuel fuel : Nat) :
    pathfinding rotFuel fuel grid_bounce (1, 1) 1 = .diverge := by
  have hs : start_border grid_bounce 1 1 = .ok 2 := by decide
  have hi : inside grid_bounce (1, 1) = true := by decide
  rw [pathfinding_eq_loop grid_bounce (1, 1) 1 2 rotFuel fuel hs (by decide)]
  have e : (if (1 : Int) = 0 then (-1 : Int) else 1) = 1 := by decide
  rw [e]
  have hloop : path_loop rotFuel grid_bounce 1 fuel ⟨(1, 1), 2, []⟩ = .diverge := by
    cases fuel with
    | zero => exact path_loop_zero_inside _ _ _ _ hi
    | succ n =>
      unfold path_loop
      rw [if_pos hi]
      cases rotFuel with
      | zero => rfl
      | succ m =>
        have hstep : path_step (m + 1) grid_bounce 1 ⟨(1, 1), 2, []⟩ =
            .ok ⟨(1, 2), 2, [(1, 1)]⟩ := by
          have := path_step_mono grid_bounce 1 1 ⟨(1, 1), 2, []⟩ ⟨(1, 2), 2, [(1, 1)]⟩
            (by decide) m
          rwa [Nat.add_comm] at this
        rw [hstep]
        exact (bounce_loops (m + 1) n _).1
  rw [hloop]

/-- After any positive number of passes (with rotation fuel 3) the right-hand walk in the
bouncing grid stands in `(1,2)` or `(2,2)`, and the next pass has a result. -/
theorem bounce_iterates (n : Nat) :
    ∃ d out, ((advance grid_bounce 1)^[n + 1] ⟨(1, 1), 2, []⟩ = ⟨(1, 2), d, out⟩ ∧
        (d = 2 ∨ d = 0)) ∨
      ((advance grid_bounce 1)^[n + 1] ⟨(1, 1), 2, []⟩ = ⟨(2, 2), d, out⟩ ∧ d = 0) := by
  induction n with
  | zero => exact ⟨2, [(1, 1)], Or.inl ⟨by decide, Or.inl rfl⟩⟩
  | succ k ih =>
    obtain ⟨d, out, h⟩ := ih
    rw [Function.iterate_succ_apply']
    rcases h with ⟨h, rfl | rfl⟩ | ⟨h, rfl⟩
    · refine ⟨0, out ++ [(1, 2)], Or.inr ⟨?_, rfl⟩⟩
      rw [h]
      unfold advance
      rw [(bounce_step_three out).1]
    · refine ⟨0, out ++ [(1, 2)], Or.inr ⟨?_, rfl⟩⟩
      rw [h]
      unfold advance
      rw [(bounce_step_three out).2.1]
    · refine ⟨0, out ++ [(2, 2)], Or.inl ⟨?_, Or.inr rfl⟩⟩
      rw [h]
      unfold advance
      rw [(bounce_step_three out).2.2]

theorem bounce_run (n : Nat) :
    inside grid_bounce ((advance grid_bounce 1)^[n] ⟨(1, 1), 2, []⟩).curr = true ∧
    path_step 3 grid_bounce 1 ((advance grid_bounce 1)^[n] ⟨(1, 1), 2, []⟩) =
      .ok ((advance grid_bounce 1)^[n + 1] ⟨(1, 1), 2, []⟩) := by
  have i1 : inside grid_bounce (1, 2) = true := by decide
  have i2 : inside grid_bounce (2, 2) = true := by decide
  cases n with
  | zero => exact ⟨by decide, by decide⟩
  | succ k =>
    rw [Function.iterate_succ_apply' (advance grid_bounce 1) (k + 1)]
    obtain ⟨d, out, h⟩ := bounce_iterates k
    rcases h with ⟨h, rfl | rfl⟩ | ⟨h, rfl⟩ <;> rw [h] <;> unfold advance
    · rw [(bounce_step_three out).1]
      exact ⟨i1, rfl⟩
    · rw [(bounce_step_three out).2.1]
      exact ⟨i1, rfl⟩
    · rw [(bounce_step_three out).2.2]
      exact ⟨i2, rfl⟩

theorem bounce_cells_open (r c : Int) (hin : InGrid grid_bounce r c) :
    isborder grid_bounce r c 0 = .ok false ∨ isborder grid_bounce r c 1 = .ok false ∨
      isborder grid_bounce r c 2 = .ok false := by
  obtain ⟨h1, h2, h3, h4⟩ := hin
  have hr : r = 1 ∨ r = 2 := by
    have : grid_bounce.rows = 2 := rfl
    omega
  have hc : c = 1 ∨ c = 2 := by
    have : grid_bounce.cols = 2 := rfl
    omega
  rcases hr with rfl | rfl <;> rcases hc with rfl | rfl <;> decide

/-- C16: in the 2 x 2 grid with codes 4, 3, 3, 3 every cell has an open border and the
entry `(1,1)` is accepted through border 2, yet the right-hand traversal never exits:
after every number of passes the position is inside the grid (from the first pass on it
is `(1,2)` or `(2,2)`), every pass has a result, and `pathfinding` has no result for
any fuel. -/
theorem traversal_can_bounce_forever :
    (grid_bounce.WF ∧ InGrid grid_bounce 1 1 ∧ start_border grid_bounce 1 1 = .ok 2 ∧
      (∀ n, inside grid_bounce ((advance grid_bounce 1)^[n] ⟨(1, 1), 2, []⟩).curr = true ∧
        path_step 3 grid_bounce 1 ((advance grid_bounce 1)^[n] ⟨(1, 1), 2, []⟩) =
          .ok ((advance grid_bounce 1)^[n + 1] ⟨(1, 1), 2, []⟩)) ∧
      (∀ n, ((advance grid_bounce 1)^[n + 1] ⟨(1, 1), 2, []⟩).curr = (1, 2) ∨
        ((advance grid_bounce 1)^[n + 1] ⟨(1, 1), 2, []⟩).curr = (2, 2))) ∧
    ∃ (map : Map) (r c b : Int), map.WF ∧
      (∀ r1 c1, InGrid map r1 c1 →
        isborder map r1 c1 0 = .ok false ∨ isborder map r1 c1 1 = .ok false ∨
          isborder map r1 c1 2 = .ok false) ∧
      InGrid map r c ∧ start_border map r c = .ok b ∧ b ≠ -1 ∧
      ∀ rotFuel fuel, pathfinding rotFuel fuel map (r, c) 1 = .diverge := by
  refine ⟨⟨by decide, by decide, by decide, bounce_run, ?_⟩,
    grid_bounce, 1, 1, 2, by decide, bounce_cells_open, by decide, by decide, by decide,
    bounce_pathfinding_diverges⟩
  intro n
  obtain ⟨d, out, h⟩ := bounce_iterates n
  rcases h with ⟨h, _⟩ | ⟨h, _⟩
  · left; rw [h]
  · right; rw [h]

/-! ## The rotation search -/

theorem rotation_first (map : Map) (curr : Int × Int) (s d : Int) (fuel : Nat)
    (h : isborder map curr.1 curr.2 (Int.tmod (d + s + 3) 3) = .ok false) :
    rotation map curr s (fuel + 1) d = .ok (Int.tmod (d + s + 3) 3) := by
  unfold rotation
  simp only [h]

theorem rotation_skip (map : Map) (curr : Int × Int) (s d : Int) (fuel : Nat)
    (h : isborder map curr.1 curr.2 (Int.tmod (d + s + 3) 3) = .ok true) :
    rotation map curr s (fuel + 1) d =
      rotation map curr s fuel (Int.tmod (d + s + 3) 3) := by
  conv_lhs => unfold rotation
  simp only [h]

theorem rotation_indices (d s : Int) (hd : d = 0 ∨ d = 1 ∨ d = 2) (hs : s = 1 ∨ s = -1) :
    Int.tmod (d + s + 3) 3 = (d + s) % 3 ∧
    Int.tmod ((d + s) % 3 + s + 3) 3 = (d + 2 * s) % 3 ∧
    Int.tmod ((d + 2 * s) % 3 + s + 3) 3 = (d + 3 * s) % 3 ∧
    (d + 3 * s) % 3 = d ∧ (d + s) % 3 ≠ d ∧ (d + 2 * s) % 3 ≠ d := by
  rcases hd with rfl | rfl | rfl <;> rcases hs with rfl | rfl <;> decide

theorem rotation_ok_open (map : Map) (curr : Int × Int) (s : Int) (fuel : Nat) :
    ∀ d b : Int, rotation map curr s fuel d = .ok b →
      isborder map curr.1 curr.2 b = .ok false := by
  induction fuel with
  | zero => intro d b h; cases h
  | succ n ih =>
    intro d b h
    cases e : isborder map curr.1 curr.2 (Int.tmod (d + s + 3) 3) with
    | ok x =>
      cases x with
      | false =>
        rw [rotation_first map curr s d n e] at h
        cases h
        exact e
      | true =>
        rw [rotation_skip map curr s d n e] at h
        exact ih _ _ h
    | fault =>
      unfold rotation at h
      simp only [e] at h
      cases h
    | diverge =>
      unfold rotation at h
      simp only [e] at h
      cases h

/-- The rotation returns the entering border only after both other borders were found
to be walls. -/
theorem rotation_returns_entry (map : Map) (curr : Int × Int) (s d : Int)
    (hd : d = 0 ∨ d = 1 ∨ d = 2) (hs : s = 1 ∨ s = -1) (fuel : Nat)
    (h : rotation map curr s fuel d = .ok d) :
    isborder map curr.1 curr.2 ((d + s) % 3) = .ok true ∧
    isborder map curr.1 curr.2 ((d + 2 * s) % 3) = .ok true := by
  obtain ⟨e1, e2, _, _, n1, n2⟩ := rotation_indices d s hd hs
  cases fuel with
  | zero => cases h
  | succ n =>
    cases a : isborder map curr.1 curr.2 (Int.tmod (d + s + 3) 3) with
    | ok x =>
      cases x with
      | false =>
        rw [rotation_first map curr s d n a, e1] at h
        exact absurd (Exec.ok.inj h) n1
      | true =>
        rw [rotation_skip map curr s d n a, e1] at h
        rw [e1] at a
        refine ⟨a, ?_⟩
        cases n with
        | zero => cases h
        | succ m =>
          cases a2 : isborder map curr.1 curr.2 (Int.tmod ((d + s) % 3 + s + 3) 3) with
          | ok y =>
            cases y with
            | false =>
              rw [rotation_first map curr s _ m a2, e2] at h
              exact absurd (Exec.ok.inj h) n2
            | true =>
              rw [e2] at a2
              exact a2
          | fault =>
            unfold rotation at h
            simp only [a2] at h
            cases h
          | diverge =>
            unfold rotation at h
            simp only [a2] at h
            cases h
    | fault =>
      unfold rotation at h
      simp only [a] at h
      cases h
    | diverge =>
      unfold rotation at h
      simp only [a] at h
      cases h

theorem read_of_isborder_ok (map : Map) (r c b : Int) (x : Bool)
    (h : isborder map r c b = .ok x) : ∃ v, read_cell map r c = some v := by
  unfold isborder at h
  cases e : read_cell map r c with
  | none => rw [e] at h; cases h
  | some v => exact ⟨v, rfl⟩

theorem rotation_result_index (map : Map) (curr : Int × Int) (s d b : Int) (fuel : Nat)
    (h : rotation map curr s fuel d = .ok b) : b = 0 ∨ b = 1 ∨ b = 2 := by
  have ho := rotation_ok_open map curr s fuel d b h
  obtain ⟨v, hv⟩ := read_of_isborder_ok map _ _ _ _ ho
  rw [isborder_of_read map _ _ v hv] at ho
  exact border_flag_index _ _ _ ho

theorem rotate_three_any (F : Bool × Bool × Bool) (s d : Int) (hs : s = 1 ∨ s = -1)
    (hd : d = 0 ∨ d = 1 ∨ d = 2)
    (ho : border_flag F 0 = .ok false ∨ border_flag F 1 = .ok false ∨
      border_flag F 2 = .ok false) :
    rotate_with (border_flag F) s 3 d = .ok 0 ∨ rotate_with (border_flag F) s 3 d = .ok 1 ∨
      rotate_with (border_flag F) s 3 d = .ok 2 := by
  obtain ⟨h, rt, l⟩ := F
  rcases hs with rfl | rfl <;> rcases hd with rfl | rfl | rfl <;>
    cases h <;> cases rt <;> cases l <;> revert ho <;> decide

/-- C17: from border `d ∈ {0,1,2}` with increment `s = ±1` the rotation loop of
`cell_movement` tests `(d+s) mod 3`, `(d+2s) mod 3`, `(d+3s) mod 3 = d` in this order
and returns the first passable one; whatever it returns is passable, and it returns `d`
only if the two other borders are walls.  The increment passed by `pathfinding` is the
rule's increment `t` (+1 right-hand, -1 left-hand) in a normal triangle and `-t` in an
upside-down one. -/
theorem rotation_selects_first_open (map : Map) (r c d s : Int)
    (hd : d = 0 ∨ d = 1 ∨ d = 2) (hs : s = 1 ∨ s = -1) :
    (d + 3 * s) % 3 = d ∧
    (∀ fuel, isborder map r c ((d + s) % 3) = .ok false →
      rotation map (r, c) s (fuel + 1) d = .ok ((d + s) % 3)) ∧
    (∀ fuel, isborder map r c ((d + s) % 3) = .ok true →
      isborder map r c ((d + 2 * s) % 3) = .ok false →
      rotation map (r, c) s (fuel + 2) d = .ok ((d + 2 * s) % 3)) ∧
    (∀ fuel, isborder map r c ((d + s) % 3) = .ok true →
      isborder map r c ((d + 2 * s) % 3) = .ok true →
      isborder map r c d = .ok false →
      rotation map (r, c) s (fuel + 3) d = .ok d) ∧
    (∀ fuel b, rotation map (r, c) s fuel d = .ok b →
      isborder map r c b = .ok false ∧
      (b = d → isborder map r c ((d + s) % 3) = .ok true ∧
        isborder map r c ((d + 2 * s) % 3) = .ok true)) ∧
    (∀ curr : Int × Int, triangle_rotation curr = 1 →
      turn 1 curr = 1 ∧ turn (-1) curr = -1) ∧
    (∀ curr : Int × Int, triangle_rotation curr ≠ 1 →
      turn 1 curr = -1 ∧ turn (-1) curr = 1) ∧
    (∀ rotFuel t w, path_step rotFuel map t w =
      match cell_movement rotFuel map w (turn t w.curr) (updown w.curr) with
      | .ok w1 => .ok { w1 with direction := next_direction w1.direction }
      | .fault => .fault
      | .diverge => .diverge) := by
  obtain ⟨e1, e2, e3, e4, _, _⟩ := rotation_indices d s hd hs
  refine ⟨e4, ?_, ?_, ?_, ?_, ?_, ?_, ?_⟩
  · intro fuel h1
    rw [← e1] at h1 ⊢
    exact rotation_first map (r, c) s d fuel h1
  · intro fuel h1 h2
    rw [← e1] at h1
    rw [rotation_skip map (r, c) s d (fuel + 1) h1, e1]
    rw [← e2] at h2 ⊢
    exact rotation_first map (r, c) s _ fuel h2
  · intro fuel h1 h2 h3
    rw [← e1] at h1
    rw [rotation_skip map (r, c) s d (fuel + 2) h1, e1]
    rw [← e2] at h2
    rw [rotation_skip map (r, c) s _ (fuel + 1) h2, e2]
    have h3b : isborder map r c (Int.tmod ((d + 2 * s) % 3 + s + 3) 3) = .ok false := by
      rw [e3, e4]; exact h3
    have := rotation_first map (r, c) s _ fuel h3b
    rw [e3, e4] at this
    exact this
  · intro fuel b h
    refine ⟨rotation_ok_open map (r, c) s fuel d b h, ?_⟩
    intro hb
    subst hb
    exact rotation_returns_entry map (r, c) s b hd hs fuel h
  · intro curr h
    unfold turn
    rw [if_pos h, if_pos h]
    exact ⟨rfl, rfl⟩
  · intro curr h
    unfold turn
    rw [if_neg h, if_neg h]
    exact ⟨rfl, rfl⟩
  · intro rotFuel t w
    exact path_step_eq rotFuel map t w

theorem rotation_selects_first_open_witness :
    ((2 : Int) = 0 ∨ (2 : Int) = 1 ∨ (2 : Int) = 2) ∧ ((-1 : Int) = 1 ∨ (-1 : Int) = -1) ∧
    isborder grid_mixed 1 1 1 = .ok false ∧
    rotation grid_mixed (1, 1) (-1) 1 2 = .ok 1 :=
  ⟨by decide, by decide, by decide,
    (rotation_selects_first_open grid_mixed 1 1 2 (-1) (by decide) (by decide)).2.1 0
      (by decide)⟩

/-- C18: in a cell with at least one passable border the rotation search, started from
any `d ∈ {0,1,2}` with any increment `s = ±1`, ends within 3 rotations: with fuel 3 (and
with any larger fuel) it returns a passable border. -/
theorem rotation_terminates_within_three (map : Map) (r c d s : Int)
    (hd : d = 0 ∨ d = 1 ∨ d = 2) (hs : s = 1 ∨ s = -1)
    (hopen : isborder map r c 0 = .ok false ∨ isborder map r c 1 = .ok false ∨
      isborder map r c 2 = .ok false) :
    ∃ b, (b = 0 ∨ b = 1 ∨ b = 2) ∧ isborder map r c b = .ok false ∧
      rotation map (r, c) s 3 d = .ok b ∧
      ∀ k, rotation map (r, c) s (3 + k) d = .ok b := by
  have hread : ∃ v, read_cell map r c = some v := by
    rcases hopen with h | h | h <;> exact read_of_isborder_ok map r c _ _ h
  obtain ⟨v, hv⟩ := hread
  have hfun : isborder map r c = border_flag (decode v) :=
    funext (isborder_of_read map r c v hv)
  rw [hfun] at hopen
  have hrot : ∀ b, rotate_with (border_flag (decode v)) s 3 d = .ok b →
      rotation map (r, c) s 3 d = .ok b := by
    intro b hb
    rw [rotation_eq_rotate_with, hfun]
    exact hb
  rcases rotate_three_any (decode v) s d hs hd hopen with h | h | h
  · exact ⟨0, Or.inl rfl, rotation_ok_open map (r, c) s 3 d 0 (hrot 0 h), hrot 0 h,
      rotation_mono map (r, c) s 3 d 0 (hrot 0 h)⟩
  · exact ⟨1, Or.inr (Or.inl rfl), rotation_ok_open map (r, c) s 3 d 1 (hrot 1 h), hrot 1 h,
      rotation_mono map (r, c) s 3 d 1 (hrot 1 h)⟩
  · exact ⟨2, Or.inr (Or.inr rfl), rotation_ok_open map (r, c) s 3 d 2 (hrot 2 h), hrot 2 h,
      rotation_mono map (r, c) s 3 d 2 (hrot 2 h)⟩

theorem rotation_terminates_within_three_witness :
    ((0 : Int) = 0 ∨ (0 : Int) = 1 ∨ (0 : Int) = 2) ∧ ((1 : Int) = 1 ∨ (1 : Int) = -1) ∧
    (isborder grid_one_cell 1 1 0 = .ok false ∨ isborder grid_one_cell 1 1 1 = .ok false ∨
      isborder grid_one_cell 1 1 2 = .ok false) ∧
    ∃ b, (b = 0 ∨ b = 1 ∨ b = 2) ∧ isborder grid_one_cell 1 1 b = .ok false ∧
      rotation grid_one_cell (1, 1) 1 3 0 = .ok b ∧
      ∀ k, rotation grid_one_cell (1, 1) 1 (3 + k) 0 = .ok b :=
  ⟨by decide, by decide, by decide,
    rotation_terminates_within_three grid_one_cell 1 1 0 1 (by decide) (by decide)
      (by decide)⟩

/-- C19: when the rotation search in cell `(r, c)` (with `r, c ≥ 1`) selects border `b`,
`cell_movement` prints `(r, c)` and moves to `(r+1, c)` for `b = 0` in a cell with
`r + c` odd, to `(r-1, c)` for `b = 0` in a cell with `r + c` even, to `(r, c+1)` for
`b = 1` and to `(r, c-1)` for `b = 2`: one coordinate changes, by exactly 1. -/
theorem cell_movement_target (rotFuel : Nat) (map : Map) (t r c d b : Int)
    (out : List (Int × Int)) (hr : 1 ≤ r) (hc : 1 ≤ c)
    (hrot : rotation map (r, c) (turn t (r, c)) rotFuel d = .ok b) :
    (b = 0 ∨ b = 1 ∨ b = 2) ∧
    ∃ r1 c1,
      cell_movement rotFuel map ⟨(r, c), d, out⟩ (turn t (r, c)) (updown (r, c)) =
        .ok ⟨(r1, c1), b, out ++ [(r, c)]⟩ ∧
      path_step rotFuel map t ⟨(r, c), d, out⟩ =
        .ok ⟨(r1, c1), next_direction b, out ++ [(r, c)]⟩ ∧
      (b = 0 → (r + c) % 2 = 1 → (r1, c1) = (r + 1, c)) ∧
      (b = 0 → (r + c) % 2 = 0 → (r1, c1) = (r - 1, c)) ∧
      (b = 1 → (r1, c1) = (r, c + 1)) ∧
      (b = 2 → (r1, c1) = (r, c - 1)) ∧
      |r1 - r| + |c1 - c| = 1 := by
  have hb := rotation_result_index map (r, c) _ d b rotFuel hrot
  have hstep := path_step_of_rotation rotFuel map t ⟨(r, c), d, out⟩ b hrot
  have hcm : cell_movement rotFuel map ⟨(r, c), d, out⟩ (turn t (r, c)) (updown (r, c)) =
      .ok ⟨move_cell (r, c) b (updown (r, c)), b, out ++ [(r, c)]⟩ := by
    unfold cell_movement
    simp only [hrot]
  have hp := triangle_rotation_eq r c (by omega)
  refine ⟨hb, (move_cell (r, c) b (updown (r, c))).1,
    (move_cell (r, c) b (updown (r, c))).2, hcm, hstep, ?_⟩
  rcases hb with rfl | rfl | rfl
  · rw [move_cell_zero]
    by_cases hodd : triangle_rotation (r, c) = 1
    · rw [if_pos hodd]
      have : (r + c) % 2 = 1 := by omega
      refine ⟨fun _ _ => rfl, fun _ h => by omega, fun h => by omega, fun h => by omega, ?_⟩
      simp
    · rw [if_neg hodd]
      have : (r + c) % 2 = 0 := by omega
      refine ⟨fun _ h => by omega, fun _ _ => rfl, fun h => by omega, fun h => by omega, ?_⟩
      simp
  · rw [move_cell_one]
    refine ⟨fun h => by omega, fun h => by omega, fun _ => rfl, fun h => by omega, ?_⟩
    simp
  · rw [move_cell_two]
    refine ⟨fun h => by omega, fun h => by omega, fun h => by omega, fun _ => rfl, ?_⟩
    simp

theorem cell_movement_target_witness :
    (1 : Int) ≤ 1 ∧ (1 : Int) ≤ 2 ∧
    rotation grid_corridor (1, 2) (turn 1 (1, 2)) 3 2 = .ok 0 ∧
    (((0 : Int) = 0 ∨ (0 : Int) = 1 ∨ (0 : Int) = 2) ∧
    ∃ r1 c1,
      cell_movement 3 grid_corridor ⟨(1, 2), 2, [(1, 1)]⟩ (turn 1 (1, 2)) (updown (1, 2)) =
        .ok ⟨(r1, c1), 0, [(1, 1)] ++ [(1, 2)]⟩ ∧
      path_step 3 grid_corridor 1 ⟨(1, 2), 2, [(1, 1)]⟩ =
        .ok ⟨(r1, c1), next_direction 0, [(1, 1)] ++ [(1, 2)]⟩ ∧
      ((0 : Int) = 0 → ((1 : Int) + 2) % 2 = 1 → (r1, c1) = ((1 : Int) + 1, (2 : Int))) ∧
      ((0 : Int) = 0 → ((1 : Int) + 2) % 2 = 0 → (r1, c1) = ((1 : Int) - 1, (2 : Int))) ∧
      ((0 : Int) = 1 → (r1, c1) = ((1 : Int), (2 : Int) + 1)) ∧
      ((0 : Int) = 2 → (r1, c1) = ((1 : Int), (2 : Int) - 1)) ∧
      |r1 - 1| + |c1 - 2| = 1) :=
  ⟨by decide, by decide, by decide,
    cell_movement_target 3 grid_corridor 1 1 2 2 0 [(1, 1)] (by decide) (by decide)
      (by decide)⟩

/-- C20: the entering border for the next cell is the crossed border with right and
left exchanged (0 gives 0, 1 gives 2, 2 gives 1); the exchange is an involution, and a
pass of the loop body applies it once to the border returned by the rotation. -/
theorem next_direction_swaps_once :
    next_direction 0 = 0 ∧ next_direction 1 = 2 ∧ next_direction 2 = 1 ∧
    (∀ x, next_direction (next_direction x) = x) ∧
    (∀ (rotFuel : Nat) (map : Map) (t : Int) (w w1 : Walk),
      path_step rotFuel map t w = .ok w1 →
      ∃ crossed, rotation map w.curr (turn t w.curr) rotFuel w.direction = .ok crossed ∧
        w1.direction = next_direction crossed ∧
        w1.curr = move_cell w.curr crossed (updown w.curr)) := by
  refine ⟨by decide, by decide, by decide, ?_, ?_⟩
  · intro x
    unfold next_direction
    simp only []
    by_cases h2 : x = 2
    · subst h2; decide
    · by_cases h1 : x = 1
      · subst h1; decide
      · simp [h1, h2]
  · intro rotFuel map t w w1 h
    cases e : rotation map w.curr (turn t w.curr) rotFuel w.direction with
    | ok b =>
      rw [path_step_of_rotation rotFuel map t w b e] at h
      cases h
      exact ⟨b, rfl, rfl, rfl⟩
    | fault =>
      rw [path_step_eq] at h
      unfold cell_movement at h
      simp only [e] at h
      cases h
    | diverge =>
      rw [path_step_of_rotation_diverge rotFuel map t w e] at h
      cases h

/-! ## The entry border -/

/-- C21: the border returned by `start_border` need not lie on the outer perimeter.  In
the open 3 x 3 grid the entry `(1, 2)` is accepted with border 0, which is passable, but
`(1, 2)` is a normal triangle (`r + c` odd): crossing its horizontal border leads down
to `(2, 2)`, inside the grid. -/
theorem start_border_returns_inner_border :
    grid_open3.WF ∧ InGrid grid_open3 1 2 ∧
    start_border grid_open3 1 2 = .ok 0 ∧
    isborder grid_open3 1 2 0 = .ok false ∧
    triangle_rotation (1, 2) = 1 ∧
    move_cell (1, 2) 0 (updown (1, 2)) = (2, 2) ∧
    InGrid grid_open3 2 2 ∧
    ¬ OnPerimeter grid_open3 (1, 2) 0 := by
  decide

/-! ## The printed path -/

theorem path_step_ok_inv (rotFuel : Nat) (map : Map) (t : Int) (w w1 : Walk)
    (h : path_step rotFuel map t w = .ok w1) :
    ∃ b, rotation map w.curr (turn t w.curr) rotFuel w.direction = .ok b ∧
      w1 = ⟨move_cell w.curr b (updown w.curr), next_direction b, w.out ++ [w.curr]⟩ := by
  cases e : rotation map w.curr (turn t w.curr) rotFuel w.direction with
  | ok b =>
    rw [path_step_of_rotation rotFuel map t w b e] at h
    exact ⟨b, rfl, (Exec.ok.inj h).symm⟩
  | fault =>
    rw [path_step_eq] at h
    unfold cell_movement at h
    simp only [e] at h
    cases h
  | diverge =>
    rw [path_step_of_rotation_diverge rotFuel map t w e] at h
    cases h

theorem move_cell_dist (p : Int × Int) (b : Int) (hb : b = 0 ∨ b = 1 ∨ b = 2) :
    |(move_cell p b (updown p)).1 - p.1| + |(move_cell p b (updown p)).2 - p.2| = 1 := by
  obtain ⟨r, c⟩ := p
  rcases hb with rfl | rfl | rfl
  · rw [move_cell_zero]
    split <;> simp
  · rw [move_cell_one]
    simp
  · rw [move_cell_two]
    simp

theorem path_step_crossed (rotFuel : Nat) (map : Map) (t : Int) (w w1 : Walk)
    (h : path_step rotFuel map t w = .ok w1) :
    Crossed map w.curr w1.curr ∧ w1.out = w.out ++ [w.curr] ∧
      (w1.direction = 0 ∨ w1.direction = 1 ∨ w1.direction = 2) := by
  obtain ⟨b, hrot, rfl⟩ := path_step_ok_inv rotFuel map t w w1 h
  have hb := rotation_result_index map w.curr _ w.direction b rotFuel hrot
  have ho := rotation_ok_open map w.curr _ rotFuel w.direction b hrot
  refine ⟨⟨b, hb, ho, rfl, move_cell_dist w.curr b hb⟩, rfl, ?_⟩
  obtain ⟨n0, n1, n2⟩ := next_direction_cases
  show next_direction b = 0 ∨ next_direction b = 1 ∨ next_direction b = 2
  rcases hb with rfl | rfl | rfl
  · exact Or.inl n0
  · exact Or.inr (Or.inr n1)
  · exact Or.inr (Or.inl n2)

theorem walkInv_step (rotFuel : Nat) (map : Map) (t : Int) (entry : Int × Int)
    (w w1 : Walk) (hinv : WalkInv map entry w) (hin : inside map w.curr = true)
    (h : path_step rotFuel map t w = .ok w1) : WalkInv map entry w1 := by
  obtain ⟨hc, hout, _⟩ := path_step_crossed rotFuel map t w w1 h
  obtain ⟨h1, h2, h3⟩ := hinv
  unfold WalkInv
  rw [hout]
  refine ⟨?_, ?_, ?_⟩
  · rw [List.head?_append_of_ne_nil _ (by simp)]
    exact h1
  · intro p hp
    rcases List.mem_append.1 hp with hp | hp
    · exact h2 p hp
    · rw [List.mem_singleton.1 hp]
      exact (inside_iff map _ _).1 hin
  · refine List.chain'_append.2 ⟨h3, List.chain'_singleton _, ?_⟩
    intro x hx y hy
    rw [List.getLast?_concat] at hx
    simp only [List.head?_cons, Option.mem_def, Option.some.injEq] at hx hy
    subst hx hy
    exact hc

theorem walkInv_passes (rotFuel : Nat) (map : Map) (t : Int) (entry : Int × Int) (n : Nat) :
    ∀ w w1 : Walk, WalkInv map entry w → path_passes rotFuel map t n w = .ok w1 →
      WalkInv map entry w1 ∧ ∃ l, w1.out = w.out ++ l ∧
        (0 < n → inside map w.curr = true → l ≠ []) := by
  induction n with
  | zero =>
    intro w w1 hinv h
    cases h
    exact ⟨hinv, [], by simp, fun h => absurd h (by omega)⟩
  | succ k ih =>
    intro w w1 hinv h
    unfold path_passes at h
    by_cases hin : inside map w.curr = true
    · rw [if_pos hin] at h
      cases e : path_step rotFuel map t w with
      | ok w2 =>
        rw [e] at h
        obtain ⟨hi, l, hl, _⟩ := ih w2 w1 (walkInv_step rotFuel map t entry w w2 hinv hin e) h
        refine ⟨hi, w.curr :: l, ?_, fun _ _ => by simp⟩
        rw [hl, (path_step_crossed rotFuel map t w w2 e).2.1]
        simp
      | fault => rw [e] at h; cases h
      | diverge => rw [e] at h; cases h
    · rw [if_neg hin] at h
      cases h
      exact ⟨hinv, [], by simp, fun _ h => absurd h hin⟩

theorem pathFrom_of_walkInv (map : Map) (entry : Int × Int) (w : Walk)
    (hinv : WalkInv map entry w) (hne : w.out ≠ []) : PathFrom map entry w.out := by
  obtain ⟨h1, h2, h3⟩ := hinv
  refine ⟨?_, h2, (List.chain'_append.1 h3).1⟩
  rw [List.head?_append_of_ne_nil _ hne] at h1
  exact h1

theorem path_loop_passes (rotFuel : Nat) (map : Map) (t : Int) (n : Nat) :
    ∀ w w1 : Walk, path_loop rotFuel map t n w = .ok w1 →
      path_passes rotFuel map t n w = .ok w1 := by
  induction n with
  | zero =>
    intro w w1 h
    unfold path_loop at h
    split at h
    · cases h
    · unfold path_passes
      exact h
  | succ k ih =>
    intro w w1 h
    unfold path_loop at h
    unfold path_passes
    by_cases hin : inside map w.curr = true
    · rw [if_pos hin] at h ⊢
      cases e : path_step rotFuel map t w with
      | ok w2 =>
        rw [e] at h
        exact ih w2 w1 h
      | fault => rw [e] at h; cases h
      | diverge => rw [e] at h; cases h
    · rw [if_neg hin] at h ⊢
      exact h

theorem rotation_three_of_open (map : Map) (curr : Int × Int) (s d : Int)
    (hs : s = 1 ∨ s = -1) (ho : isborder map curr.1 curr.2 d = .ok false) :
    ∃ b, rotation map curr s 3 d = .ok b := by
  obtain ⟨v, hv⟩ := read_of_isborder_ok map _ _ _ _ ho
  have hfun : isborder map curr.1 curr.2 = border_flag (decode v) :=
    funext (isborder_of_read map _ _ v hv)
  rw [hfun] at ho
  obtain ⟨b, _, hrot, _⟩ := rotate_three (decode v) s d hs ho
  exact ⟨b, by rw [rotation_eq_rotate_with, hfun]; exact hrot⟩

theorem walkInv_start (map : Map) (entry : Int × Int) (b : Int) :
    WalkInv map entry ⟨entry, b, []⟩ :=
  ⟨rfl, fun p hp => absurd hp (List.not_mem_nil p), List.chain'_singleton _⟩

theorem rule_increment_sign (hand_rule : Int) :
    (if hand_rule = 0 then (-1 : Int) else 1) = 1 ∨
      (if hand_rule = 0 then (-1 : Int) else 1) = -1 := by
  split <;> simp

theorem passes_print_path (rotFuel : Nat) (map : Map) (t : Int) (entry : Int × Int) (b : Int)
    (n : Nat) (w : Walk) (hin : inside map entry = true) (hn : 0 < n)
    (h : path_passes rotFuel map t n ⟨entry, b, []⟩ = .ok w) : PathFrom map entry w.out := by
  obtain ⟨hinv, l, hl, hne⟩ := walkInv_passes rotFuel map t entry n _ w
    (walkInv_start map entry b) h
  apply pathFrom_of_walkInv map entry w hinv
  rw [hl]
  simpa using hne hn hin

/-- C22: for an in-grid entry accepted by `start_border`, what a finished run of
`pathfinding` has printed, and what any run has printed after any positive number of
passes, is a path from the entry cell: its first cell is the entry cell, every cell lies
inside the grid, and each cell is reached from the one before it by crossing a border
that is passable there (the two cells differ by exactly 1 in exactly one coordinate).
The first pass does print the entry cell. -/
theorem emitted_cells_form_path (map : Map) (r c b hand_rule : Int)
    (hin : InGrid map r c) (hstart : start_border map r c = .ok b) (hb : b ≠ -1) :
    (∀ rotFuel fuel st out, pathfinding rotFuel fuel map (r, c) hand_rule = .ok (st, out) →
      st = 0 ∧ PathFrom map (r, c) out) ∧
    (∀ rotFuel n w, 0 < n →
      path_passes rotFuel map (if hand_rule = 0 then -1 else 1) n ⟨(r, c), b, []⟩ = .ok w →
      PathFrom map (r, c) w.out) ∧
    (∀ k, ∃ w,
      path_passes (3 + k) map (if hand_rule = 0 then -1 else 1) 1 ⟨(r, c), b, []⟩ = .ok w ∧
      w.out = [(r, c)]) := by
  have hi : inside map (r, c) = true := (inside_iff map r c).2 hin
  refine ⟨?_, ?_, ?_⟩
  · intro rotFuel fuel st out h
    rw [pathfinding_eq_loop map (r, c) hand_rule b rotFuel fuel hstart hb] at h
    cases e : path_loop rotFuel map (if hand_rule = 0 then -1 else 1) fuel ⟨(r, c), b, []⟩ with
    | ok w =>
      rw [e] at h
      simp only [Exec.ok.injEq, Prod.mk.injEq] at h
      obtain ⟨h1, h2⟩ := h
      subst h1 h2
      refine ⟨rfl, ?_⟩
      cases fuel with
      | zero =>
        rw [path_loop_zero_inside map _ rotFuel _ hi] at e
        cases e
      | succ n =>
        exact passes_print_path rotFuel map _ (r, c) b (n + 1) w hi (by omega)
          (path_loop_passes rotFuel map _ (n + 1) _ w e)
    | fault => rw [e] at h; cases h
    | diverge => rw [e] at h; cases h
  · intro rotFuel n w hn h
    exact passes_print_path rotFuel map _ (r, c) b n w hi hn h
  · intro k
    have ho := start_border_open map r c b hstart hb
    obtain ⟨b1, hrot⟩ := rotation_three_of_open map (r, c)
      (turn (if hand_rule = 0 then -1 else 1) (r, c)) b
      (turn_sign _ _ (rule_increment_sign hand_rule)) ho
    have hstep := path_step_of_rotation (3 + k) map (if hand_rule = 0 then -1 else 1)
      ⟨(r, c), b, []⟩ b1 (rotation_mono map (r, c) _ 3 b b1 hrot k)
    refine ⟨⟨move_cell (r, c) b1 (updown (r, c)), next_direction b1, [(r, c)]⟩, ?_, rfl⟩
    unfold path_passes
    rw [if_pos hi, hstep]
    rfl

theorem emitted_cells_form_path_witness :
    InGrid grid_corridor 1 1 ∧ start_border grid_corridor 1 1 = .ok 2 ∧ (2 : Int) ≠ -1 ∧
    pathfinding 3 4 grid_corridor (1, 1) 1 = .ok (0, [(1, 1), (1, 2), (2, 2), (2, 1)]) ∧
    PathFrom grid_corridor (1, 1) [(1, 1), (1, 2), (2, 2), (2, 1)] :=
  ⟨by decide, by decide, by decide, by decide,
    ((emitted_cells_form_path grid_corridor 1 1 2 1 (by decide) (by decide) (by decide)).1
      3 4 0 [(1, 1), (1, 2), (2, 2), (2, 1)] (by decide)).2⟩

/-! ## Lookups stay in range -/

theorem start_border_result (map : Map) (r c : Int) (hwf : map.WF) (hin : InGrid map r c) :
    ∃ b, start_border map r c = .ok b ∧ (b = -1 ∨ b = 0 ∨ b = 1 ∨ b = 2) := by
  obtain ⟨v, _, b0, b1, b2⟩ := isborder_ok map r c hwf hin
  unfold start_border
  rw [b0, b1, b2]
  cases (decode v).1 <;> cases (decode v).2.1 <;> cases (decode v).2.2 <;>
    split_ifs <;> simp

theorem rotation_no_fault (map : Map) (curr : Int × Int) (s : Int) (hwf : map.WF)
    (hin : InGrid map curr.1 curr.2) (hs : s = 1 ∨ s = -1) (fuel : Nat) :
    ∀ d : Int, (d = 0 ∨ d = 1 ∨ d = 2) → rotation map curr s fuel d ≠ .fault := by
  obtain ⟨v, _, b0, b1, b2⟩ := isborder_ok map _ _ hwf hin
  induction fuel with
  | zero => intro d _ h; cases h
  | succ n ih =>
    intro d hd
    have hi := tmod_step_index d s hd hs
    have hval : ∃ x, isborder map curr.1 curr.2 (Int.tmod (d + s + 3) 3) = .ok x := by
      rcases hi with e | e | e <;> rw [e]
      · exact ⟨_, b0⟩
      · exact ⟨_, b1⟩
      · exact ⟨_, b2⟩
    obtain ⟨x, hx⟩ := hval
    cases x with
    | false =>
      rw [rotation_first map curr s d n hx]
      intro h; cases h
    | true =>
      rw [rotation_skip map curr s d n hx]
      exact ih _ hi

theorem path_step_no_fault (rotFuel : Nat) (map : Map) (t : Int) (w : Walk) (hwf : map.WF)
    (ht : t = 1 ∨ t = -1) (hin : InGrid map w.curr.1 w.curr.2)
    (hd : w.direction = 0 ∨ w.direction = 1 ∨ w.direction = 2) :
    path_step rotFuel map t w ≠ .fault := by
  have hr := rotation_no_fault map w.curr (turn t w.curr) hwf hin (turn_sign t _ ht) rotFuel
    w.direction hd
  cases e : rotation map w.curr (turn t w.curr) rotFuel w.direction with
  | ok b =>
    rw [path_step_of_rotation rotFuel map t w b e]
    intro h; cases h
  | fault => exact absurd e hr
  | diverge =>
    rw [path_step_of_rotation_diverge rotFuel map t w e]
    intro h; cases h

theorem path_passes_no_fault (rotFuel : Nat) (map : Map) (t : Int) (hwf : map.WF)
    (ht : t = 1 ∨ t = -1) (n : Nat) :
    ∀ w : Walk, (w.direction = 0 ∨ w.direction = 1 ∨ w.direction = 2) →
      path_passes rotFuel map t n w ≠ .fault ∧
      ∀ w1, path_passes rotFuel map t n w = .ok w1 →
        (w1.direction = 0 ∨ w1.direction = 1 ∨ w1.direction = 2) := by
  induction n with
  | zero =>
    intro w hd
    refine ⟨(fun h => nomatch h), fun w1 h => ?_⟩
    cases h
    exact hd
  | succ k ih =>
    intro w hd
    unfold path_passes
    by_cases hin : inside map w.curr = true
    · rw [if_pos hin]
      have hnf := path_step_no_fault rotFuel map t w hwf ht ((inside_iff map _ _).1 hin) hd
      cases e : path_step rotFuel map t w with
      | ok w2 =>
        exact ih w2 (path_step_crossed rotFuel map t w w2 e).2.2
      | fault => exact absurd e hnf
      | diverge => exact ⟨(fun h => nomatch h), (fun w1 h => nomatch h)⟩
    · rw [if_neg hin]
      refine ⟨(fun h => nomatch h), fun w1 h => ?_⟩
      cases h
      exact hd

theorem path_loop_no_fault (rotFuel : Nat) (map : Map) (t : Int) (hwf : map.WF)
    (ht : t = 1 ∨ t = -1) (n : Nat) :
    ∀ w : Walk, (w.direction = 0 ∨ w.direction = 1 ∨ w.direction = 2) →
      path_loop rotFuel map t n w ≠ .fault := by
  induction n with
  | zero =>
    intro w _
    unfold path_loop
    split <;> (intro h; cases h)
  | succ k ih =>
    intro w hd
    unfold path_loop
    by_cases hin : inside map w.curr = true
    · rw [if_pos hin]
      have hnf := path_step_no_fault rotFuel map t w hwf ht ((inside_iff map _ _).1 hin) hd
      cases e : path_step rotFuel map t w with
      | ok w2 =>
        exact ih w2 (path_step_crossed rotFuel map t w w2 e).2.2
      | fault => exact absurd e hnf
      | diverge => intro h; cases h
    · rw [if_neg hin]
      intro h; cases h

theorem cell_value_inGrid (map : Map) (r c : Int) (hwf : map.WF) (hin : InGrid map r c) :
    0 ≤ cell_value map r c ∧ cell_value map r c < map.rows * map.cols := by
  have h := cell_value_range map r c hwf hin
  rw [hwf.2.2] at h
  exact h

/-- C23: in a loaded grid (`rows, cols ≥ 1`, `rows * cols` codes) with an in-grid entry
cell no lookup of `start_border` or of the traversal leaves its array: no run has the
result `fault`, whatever the fuel and the rule.  In every state the loop reaches the
border index is 0, 1 or 2, and while the position is inside the grid the cell index
`(r-1)*cols + c - 1` lies in `[0, rows*cols)`, the value `direction + increment + 3` is
not negative, its remainder is again 0, 1 or 2, and the rotation loop makes no
out-of-range read. -/
theorem lookups_stay_in_range (map : Map) (r c : Int) (hwf : map.WF)
    (hin : InGrid map r c) :
    (0 ≤ cell_value map r c ∧ cell_value map r c < map.rows * map.cols) ∧
    (∃ b, start_border map r c = .ok b ∧ (b = -1 ∨ b = 0 ∨ b = 1 ∨ b = 2)) ∧
    (∀ rotFuel fuel hand_rule, pathfinding rotFuel fuel map (r, c) hand_rule ≠ .fault) ∧
    (∀ (rotFuel : Nat) (hand_rule b : Int) (n : Nat), start_border map r c = .ok b → b ≠ -1 →
      path_passes rotFuel map (if hand_rule = 0 then -1 else 1) n ⟨(r, c), b, []⟩ ≠ .fault ∧
      ∀ w, path_passes rotFuel map (if hand_rule = 0 then -1 else 1) n ⟨(r, c), b, []⟩ =
          .ok w →
        (w.direction = 0 ∨ w.direction = 1 ∨ w.direction = 2) ∧
        (inside map w.curr = true →
          0 ≤ cell_value map w.curr.1 w.curr.2 ∧
          cell_value map w.curr.1 w.curr.2 < map.rows * map.cols ∧
          ∀ fuel d s, (d = 0 ∨ d = 1 ∨ d = 2) → (s = 1 ∨ s = -1) →
            0 ≤ d + s + 3 ∧
            (Int.tmod (d + s + 3) 3 = 0 ∨ Int.tmod (d + s + 3) 3 = 1 ∨
              Int.tmod (d + s + 3) 3 = 2) ∧
            rotation map w.curr s fuel d ≠ .fault)) := by
  obtain ⟨b, hs, hbr⟩ := start_border_result map r c hwf hin
  refine ⟨cell_value_inGrid map r c hwf hin, ⟨b, hs, hbr⟩, ?_, ?_⟩
  · intro rotFuel fuel hand_rule
    by_cases hb : b = -1
    · unfold pathfinding
      simp only [hs, if_pos hb]
      intro h; cases h
    · rw [pathfinding_eq_loop map (r, c) hand_rule b rotFuel fuel hs hb]
      have hd : b = 0 ∨ b = 1 ∨ b = 2 := by omega
      have hnf := path_loop_no_fault rotFuel map _ hwf (rule_increment_sign hand_rule) fuel
        ⟨(r, c), b, []⟩ hd
      cases e : path_loop rotFuel map (if hand_rule = 0 then -1 else 1) fuel
          ⟨(r, c), b, []⟩ with
      | ok w => intro h; cases h
      | fault => exact absurd e hnf
      | diverge => intro h; cases h
  · intro rotFuel hand_rule b1 n hs1 hb1
    rw [hs] at hs1
    have hbb : b = b1 := Exec.ok.inj hs1
    subst hbb
    have hd : b = 0 ∨ b = 1 ∨ b = 2 := by omega
    obtain ⟨h1, h2⟩ := path_passes_no_fault rotFuel map _ hwf (rule_increment_sign hand_rule) n
      ⟨(r, c), b, []⟩ hd
    refine ⟨h1, fun w hw => ⟨h2 w hw, fun hi => ?_⟩⟩
    have hin2 := (inside_iff map _ _).1 hi
    obtain ⟨c1, c2⟩ := cell_value_inGrid map _ _ hwf hin2
    refine ⟨c1, c2, fun fuel d s hd2 hs2 => ⟨by omega, tmod_step_index d s hd2 hs2, ?_⟩⟩
    exact rotation_no_fault map w.curr s hwf hin2 hs2 fuel d hd2

theorem lookups_stay_in_range_witness :
    grid_corridor.WF ∧ InGrid grid_corridor 1 1 ∧
    (∀ rotFuel fuel hand_rule,
      pathfinding rotFuel fuel grid_corridor (1, 1) hand_rule ≠ .fault) :=
  ⟨by decide, by decide,
    (lookups_stay_in_range grid_corridor 1 1 (by decide) (by decide)).2.2.1⟩

end Maze

namespace Contacts

/-! ## Conversion of a contact to keypad digits -/

theorem set_same (a : List Int) (i : Nat) (ch : Int) (h : a[i]? = some ch) :
    a.set i ch = a := by
  apply List.ext_getElem?
  intro j
  rw [List.getElem?_set]
  by_cases hij : i = j
  · subst hij
    have hlt : i < a.length := by
      by_contra hge
      rw [List.getElem?_eq_none (by omega)] at h
      cases h
    rw [if_pos rfl, if_pos hlt, h]
  · rw [if_neg hij]

theorem lowercase_at_eq (a : List Int) (i : Nat) (ch : Int) (h : a[i]? = some ch) :
    lowercase_at a i = some (a.set i (lower_char ch)) := by
  unfold lowercase_at lower_char
  rw [h]
  simp only []
  split
  · rfl
  · rw [set_same a i ch h]

theorem ite_set (cond : Prop) [Decidable cond] (a : List Int) (i : Nat) (x y : Int)
    (rest : Option (List Int)) (h : rest = some (a.set i y)) :
    (if cond then some (a.set i x) else rest) = some (a.set i (if cond then x else y)) := by
  split
  · rfl
  · exact h

theorem digit_at_eq (a : List Int) (i : Nat) (ch : Int) (h : a[i]? = some ch) :
    digit_at a i = some (a.set i (digit_char ch)) := by
  unfold digit_at digit_char
  rw [h]
  simp only []
  refine ite_set _ a i _ _ _ (ite_set _ a i _ _ _ (ite_set _ a i _ _ _ (ite_set _ a i _ _ _
    (ite_set _ a i _ _ _ (ite_set _ a i _ _ _ (ite_set _ a i _ _ _ (ite_set _ a i _ _ _
    (ite_set _ a i _ _ _ ?_))))))))
  rw [set_same a i ch h]

theorem uppercase_loop_eq (k : Nat) :
    ∀ (i : Nat) (a : List Int), uppercase_loop k i a = update_loop lower_char k i a := by
  induction k with
  | zero => intro i a; rfl
  | succ n ih =>
    intro i a
    unfold uppercase_loop update_loop
    cases h : a[i]? with
    | none =>
      unfold lowercase_at
      rw [h]
    | some ch =>
      rw [lowercase_at_eq a i ch h]
      exact ih _ _

theorem convert_loop_eq (k : Nat) :
    ∀ (i : Nat) (a : List Int), convert_loop k i a = update_loop digit_char k i a := by
  induction k with
  | zero => intro i a; rfl
  | succ n ih =>
    intro i a
    unfold convert_loop update_loop
    cases h : a[i]? with
    | none =>
      unfold digit_at
      rw [h]
    | some ch =>
      rw [digit_at_eq a i ch h]
      exact ih _ _

theorem update_loop_spec (g : Int → Int) (k : Nat) :
    ∀ (i : Nat) (a : List Int), i + k ≤ a.length →
      ∃ r, update_loop g k i a = some r ∧ r.length = a.length ∧
        ∀ j, r[j]? = if i ≤ j ∧ j < i + k then (a[j]?).map g else a[j]? := by
  induction k with
  | zero =>
    intro i a _
    refine ⟨a, rfl, rfl, fun j => ?_⟩
    rw [if_neg (by omega)]
  | succ n ih =>
    intro i a hle
    have hlt : i < a.length := by omega
    have hget : a[i]? = some a[i] := List.getElem?_eq_getElem hlt
    obtain ⟨r, hr, hlen, hpt⟩ := ih (i + 1) (a.set i (g a[i]))
      (by rw [List.length_set]; omega)
    refine ⟨r, ?_, ?_, fun j => ?_⟩
    · unfold update_loop
      rw [hget]
      exact hr
    · rw [hlen, List.length_set]
    · rw [hpt j, List.getElem?_set]
      by_cases hij : i = j
      · subst hij
        rw [if_neg (by omega), if_pos rfl, if_pos hlt, if_pos (by omega), hget]
        rfl
      · rw [if_neg hij]
        by_cases hc : i + 1 ≤ j ∧ j < i + 1 + n
        · rw [if_pos hc, if_pos (by omega)]
        · rw [if_neg hc, if_neg (by omega)]

theorem update_loop_map (g : Int → Int) (a : List Int) :
    update_loop g a.length 0 a = some (a.map g) := by
  obtain ⟨r, hr, hlen, hpt⟩ := update_loop_spec g a.length 0 a (by omega)
  rw [hr]
  congr 1
  apply List.ext_getElem?
  intro j
  rw [hpt j, List.getElem?_map]
  by_cases hj : j < a.length
  · rw [if_pos (by omega)]
  · rw [if_neg (by omega), List.getElem?_eq_none (by omega)]
    rfl

theorem digit_char_other (ch : Int) (h : ch < 43 ∨ 122 < ch) : digit_char ch = ch := by
  unfold digit_char
  repeat rw [if_neg (by omega)]

theorem keypad_spec_other (ch : Int) (h : ch < 43 ∨ 122 < ch) : keypad_spec ch = ch := by
  unfold keypad_spec in_group
  repeat rw [if_neg (by omega)]

theorem lower_char_other (ch : Int) (h : ch < 43 ∨ 122 < ch) : lower_char ch = ch := by
  unfold lower_char
  rw [if_neg (by omega)]

theorem digit_lower_eq_keypad (ch : Int) : digit_char (lower_char ch) = keypad_spec ch := by
  by_cases hr : 43 ≤ ch ∧ ch ≤ 122
  · obtain ⟨h1, h2⟩ := hr
    interval_cases ch <;> decide
  · have h : ch < 43 ∨ 122 < ch := by omega
    rw [lower_char_other ch h, digit_char_other ch h, keypad_spec_other ch h]

theorem keypad_not_letter (ch : Int) : ¬ is_letter (keypad_spec ch) := by
  by_cases hr : 43 ≤ ch ∧ ch ≤ 122
  · obtain ⟨h1, h2⟩ := hr
    interval_cases ch <;> decide
  · have h : ch < 43 ∨ 122 < ch := by omega
    rw [keypad_spec_other ch h]
    unfold is_letter
    omega

theorem digit_keypad_fixed (ch : Int) : digit_char (keypad_spec ch) = keypad_spec ch := by
  by_cases hr : 43 ≤ ch ∧ ch ≤ 122
  · obtain ⟨h1, h2⟩ := hr
    interval_cases ch <;> decide
  · have h : ch < 43 ∨ 122 < ch := by omega
    rw [keypad_spec_other ch h, digit_char_other ch h]

theorem keypad_spec_unchanged (ch : Int) (hl : ¬ is_letter ch) (hp : ch ≠ 43) :
    keypad_spec ch = ch := by
  by_cases hr : 43 ≤ ch ∧ ch ≤ 122
  · obtain ⟨h1, h2⟩ := hr
    interval_cases ch <;> revert hl hp <;> decide
  · exact keypad_spec_other ch (by omega)

theorem uppercase_to_lowercase_map (a : List Int) :
    uppercase_to_lowercase a a.length = some (a.map lower_char) := by
  unfold uppercase_to_lowercase
  rw [uppercase_loop_eq, update_loop_map]

theorem convert_to_numbers_map (a : List Int) :
    convert_to_numbers a a.length = some (a.map digit_char) := by
  unfold convert_to_numbers
  simp only []
  rw [convert_loop_eq, update_loop_map]

/-- The contact `Ab+1Z` is lowered to `ab+1z` and converted to `22019`. -/
theorem contact_example :
    uppercase_to_lowercase [65, 98, 43, 49, 90] 5 = some [97, 98, 43, 49, 122] ∧
    convert_to_numbers [97, 98, 43, 49, 122] 5 = some [50, 50, 48, 49, 57] := by
  decide

/-- C24: for every contact string (with `stringLength` its length, as `read_contact` sets
it) `uppercase_to_lowercase` followed by `convert_to_numbers` yields a string of the same
length in which every character is replaced by its image under the keypad table of the
specification: letters of either case by their digit, `+` by `0`, every other character
by itself.  The result holds no ASCII letter and `convert_to_numbers` leaves it as it
is. -/
theorem contact_converted_to_digits (currentContact : List Int) :
    ∃ lowered converted : List Int,
      uppercase_to_lowercase currentContact currentContact.length = some lowered ∧
      convert_to_numbers lowered currentContact.length = some converted ∧
      converted.length = currentContact.length ∧
      converted = currentContact.map keypad_spec ∧
      (∀ (i : Nat) (ch : Int), currentContact[i]? = some ch →
        converted[i]? = some (keypad_spec ch)) ∧
      (∀ ch, ¬ is_letter ch → ch ≠ 43 → keypad_spec ch = ch) ∧
      (∀ x ∈ converted, ¬ is_letter x) ∧
      convert_to_numbers converted currentContact.length = some converted := by
  have hlen : (currentContact.map lower_char).length = currentContact.length :=
    List.length_map _ _
  have hconv : (currentContact.map lower_char).map digit_char =
      currentContact.map keypad_spec := by
    rw [List.map_map]
    apply List.map_congr_left
    intro ch _
    exact digit_lower_eq_keypad ch
  have hlen2 : (currentContact.map keypad_spec).length = currentContact.length :=
    List.length_map _ _
  refine ⟨currentContact.map lower_char, currentContact.map keypad_spec,
    uppercase_to_lowercase_map currentContact, ?_, hlen2, rfl, ?_, keypad_spec_unchanged, ?_, ?_⟩
  · rw [← hlen, convert_to_numbers_map, hconv]
  · intro i ch h
    rw [List.getElem?_map, h]
    rfl
  · intro x hx
    obtain ⟨ch, _, rfl⟩ := List.mem_map.1 hx
    exact keypad_not_letter ch
  · rw [← hlen2, convert_to_numbers_map]
    congr 1
    rw [List.map_map]
    apply List.map_congr_left
    intro ch _
    exact digit_keypad_fixed ch

end Contacts
